import Mathlib

/-!
Verification of the sykli Python SDK core (src/sdk/python/src/sykli/__init__.py):
a builder / validator / serializer that turns an in-memory task graph into a
versioned JSON intermediate representation.

The embedding is shallow: Python objects become Lean structures, mutation
becomes explicit state passing, Python dicts (insertion ordered) become
association lists with overwrite-or-append insertion, and the one loop whose
termination is in question (the positional-output key-collision loop in
Task._to_dict) is embedded with explicit fuel.  Rational numbers stand for
Python floats in the Jaro-Winkler similarity.
-/

set_option maxHeartbeats 1000000

namespace Sykli

/-- JSON-like values as produced by the serializer.  Objects are association
lists in insertion order, exactly like Python dicts. -/
inductive JVal where
  | s : String → JVal
  | n : Nat → JVal
  | arr : List JVal → JVal
  | obj : List (String × JVal) → JVal
deriving Repr

/-- Python `key in dict`. -/
def hasKey (d : List (String × α)) (k : String) : Bool :=
  d.any (fun kv => kv.1 == k)

/-- Python `dict[key] = value`: overwrite in place if the key exists
(keeping its position), append otherwise. -/
def dinsert (d : List (String × α)) (k : String) (v : α) : List (String × α) :=
  if hasKey d k then d.map (fun kv => if kv.1 == k then (k, v) else kv)
  else d ++ [(k, v)]

/-- Python `dict.get(key)`. -/
def lookupD (d : List (String × α)) (k : String) : Option α :=
  (d.find? (fun kv => kv.1 == k)).map (·.2)

/-- Python str.startswith, modelled on the character list so that concrete
runs reduce in the kernel. -/
def strStartsWith (s p : String) : Bool :=
  List.isPrefixOf p.data s.data

/-- Python str.strip(): drop whitespace from both ends (modelled on the
character list so that concrete runs reduce in the kernel). -/
def strStrip (s : String) : String :=
  ⟨((s.data.dropWhile Char.isWhitespace).reverse.dropWhile Char.isWhitespace).reverse⟩

/-- K8sOptions dataclass. -/
structure K8sOptions where
  memory : String := ""
  cpu : String := ""
  gpu : Nat := 0
  raw : String := ""
deriving Repr, DecidableEq

/-- SecretRef dataclass. -/
structure SecretRef where
  name : String
  source : String
  key : String
deriving Repr, DecidableEq

/-- One entry of Task._mounts / Template._mounts: the Python dict
literal has keys "resource", "path", "type" in that order. -/
structure Mount where
  resource : String
  path : String
  mtype : String
deriving Repr, DecidableEq

/-- One entry of Task._task_inputs: keys "from_task", "output", "dest". -/
structure TaskInput where
  fromTask : String
  output : String
  dest : String
deriving Repr, DecidableEq

/-- One entry of Task._services: keys "image", "name". -/
structure Service where
  image : String
  name : String
deriving Repr, DecidableEq

/-- One entry of Task._provides: key "name", plus "value" when truthy
(the empty string stands for the absent / falsy value). -/
structure Capability where
  name : String
  value : String := ""
deriving Repr, DecidableEq

/-- The Task entity: one field per Python instance attribute. -/
structure Task where
  name : String
  isGate : Bool := false
  command : String := ""
  container : String := ""
  workdir : String := ""
  env : List (String × String) := []
  mounts : List Mount := []
  inputs : List String := []
  outputs : List (String × String) := []
  outputsV1 : List String := []
  dependsOn : List String := []
  whenCond : String := ""
  secrets : List String := []
  secretRefs : List SecretRef := []
  matrix : List (String × List String) := []
  services : List Service := []
  retry : Nat := 0
  timeout : Nat := 0
  target : String := ""
  k8s : Option K8sOptions := none
  k8sRaw : String := ""
  requires : List String := []
  taskInputs : List TaskInput := []
  covers : List String := []
  intent : String := ""
  criticality : String := ""
  onFail : String := ""
  select : String := ""
  provides : List Capability := []
  needs : List String := []
  gateStrategy : String := ""
  gateTimeout : Nat := 0
  gateMessage : String := ""
  gateEnvVar : String := ""
  gateFilePath : String := ""
deriving Repr, DecidableEq

/-- Task.__init__: gate fields get their gate defaults exactly when the
node is a gate. -/
def mkTask (name : String) (isGate : Bool) : Task :=
  { name := name
    isGate := isGate
    gateStrategy := if isGate then "prompt" else ""
    gateTimeout := if isGate then 3600 else 0 }

/-- Task.run: raises on an empty command, else sets it. -/
def Task.run (t : Task) (cmd : String) : Except String Task :=
  if cmd = "" then .error ("task '" ++ t.name ++ "': command cannot be empty")
  else .ok { t with command := cmd }

/-- Task.after over a list of names: skip empty names, de-duplicate. -/
def Task.afterL (t : Task) (names : List String) : Task :=
  names.foldl
    (fun t n =>
      if n ≠ "" ∧ n ∉ t.dependsOn then { t with dependsOn := t.dependsOn ++ [n] }
      else t)
    t

/-- Task.mount_cwd: appends the implicit source mount and sets the workdir.
It does NOT register any resource with the pipeline. -/
def Task.mountCwd (t : Task) : Task :=
  { t with mounts := t.mounts ++ [⟨"src:.", "/work", "directory"⟩], workdir := "/work" }

/-- Task.mount_cwd_at. -/
def Task.mountCwdAt (t : Task) (path : String) : Except String Task :=
  if path = "" ∨ ¬strStartsWith path "/" then
    .error ("task '" ++ t.name ++ "': mount path must be absolute")
  else .ok { t with mounts := t.mounts ++ [⟨"src:.", path, "directory"⟩], workdir := path }

/-- Task.output (named output). -/
def Task.output (t : Task) (name path : String) : Task :=
  { t with outputs := dinsert t.outputs name path }

/-- Task.outputs (positional v1 outputs). -/
def Task.outputsP (t : Task) (paths : List String) : Task :=
  { t with outputsV1 := t.outputsV1 ++ paths }

/-- TaskGroup: holds the task names produced by a combinator. -/
structure TaskGroup where
  name : String
  taskNames : List String
deriving Repr, DecidableEq

/-- Directory resource. -/
structure Directory where
  path : String
  globs : List String := []
deriving Repr, DecidableEq

/-- Directory.id property. -/
def Directory.id (d : Directory) : String := "src:" ++ d.path

/-- CacheVolume resource; its id is its name. -/
structure CacheVolume where
  name : String
deriving Repr, DecidableEq

/-- A registered resource (value of Pipeline._registered_resources). -/
inductive Resource where
  | dir : Directory → Resource
  | cache : CacheVolume → Resource
deriving Repr, DecidableEq

/-- Resource.id. -/
def Resource.rid : Resource → String
  | .dir d => d.id
  | .cache c => c.name

/-- The Pipeline aggregate: tasks in declaration order, the resource
registry, and the optional quantity defaults. -/
structure Pipeline where
  tasks : List Task := []
  taskNames : List String := []
  dirs : List Directory := []
  caches : List CacheVolume := []
  registeredResources : List (String × Resource) := []
  k8sDefaults : Option K8sOptions := none
deriving Repr

/-- Pipeline.task: name must be fresh and non-empty. -/
def Pipeline.addTask (p : Pipeline) (name : String) : Except String (Pipeline × Task) :=
  if name = "" then .error "task name cannot be empty"
  else if name ∈ p.taskNames then .error ("task '" ++ name ++ "' already exists")
  else
    let t := mkTask name false
    .ok ({ p with tasks := p.tasks ++ [t], taskNames := p.taskNames ++ [name] }, t)

/-- Pipeline.gate. -/
def Pipeline.addGate (p : Pipeline) (name : String) : Except String (Pipeline × Task) :=
  if name = "" then .error "gate name cannot be empty"
  else if name ∈ p.taskNames then .error ("task/gate '" ++ name ++ "' already exists")
  else
    let t := mkTask name true
    .ok ({ p with tasks := p.tasks ++ [t], taskNames := p.taskNames ++ [name] }, t)

/-- Pipeline.dir: de-duplicates by path, returning the first existing
directory with that path, else appending a fresh one. -/
def Pipeline.dir (p : Pipeline) (path : String) : Except String (Pipeline × Directory) :=
  if path = "" ∨ strStrip path = "" then .error "directory path cannot be empty"
  else
    match p.dirs.find? (fun d => d.path == path) with
    | some d => .ok (p, d)
    | none =>
      let d : Directory := ⟨path, []⟩
      .ok ({ p with dirs := p.dirs ++ [d] }, d)

/-- Pipeline.cache: de-duplicates by cache name. -/
def Pipeline.cache (p : Pipeline) (name : String) : Except String (Pipeline × CacheVolume) :=
  if name = "" ∨ strStrip name = "" then .error "cache name cannot be empty"
  else
    match p.caches.find? (fun c => c.name == name) with
    | some c => .ok (p, c)
    | none =>
      let c : CacheVolume := ⟨name⟩
      .ok ({ p with caches := p.caches ++ [c] }, c)

/-- Pipeline._register_resource: first registration wins. -/
def Pipeline.registerResource (p : Pipeline) (r : Resource) : Pipeline :=
  if p.registeredResources.any (fun kv => kv.1 == r.rid) then p
  else { p with registeredResources := p.registeredResources ++ [(r.rid, r)] }

/-- Mutate the first task with the given name (Python aliases the Task
object; task names are unique, so updating the first match is the same). -/
def updateFirst : List Task → String → (Task → Task) → List Task
  | [], _, _ => []
  | t :: ts, name, f =>
    if t.name = name then f t :: ts else t :: updateFirst ts name f

/-- Task.mount on a task of the pipeline: appends the mount entry and
registers the directory with the pipeline. -/
def Pipeline.mountOnTask (p : Pipeline) (tname : String) (d : Directory) (path : String) :
    Except String Pipeline :=
  if path = "" ∨ ¬strStartsWith path "/" then
    .error ("task '" ++ tname ++ "': mount path must be absolute")
  else
    let add := fun (t : Task) => { t with mounts := t.mounts ++ [⟨d.id, path, "directory"⟩] }
    let p := { p with tasks := updateFirst p.tasks tname add }
    .ok (p.registerResource (.dir d))

/-- Task.mount_cache on a task of the pipeline. -/
def Pipeline.mountCacheOnTask (p : Pipeline) (tname : String) (c : CacheVolume) (path : String) :
    Except String Pipeline :=
  if path = "" ∨ ¬strStartsWith path "/" then
    .error ("task '" ++ tname ++ "': mount path must be absolute")
  else
    let add := fun (t : Task) => { t with mounts := t.mounts ++ [⟨c.name, path, "cache"⟩] }
    let p := { p with tasks := updateFirst p.tasks tname add }
    .ok (p.registerResource (.cache c))

/-- An argument of Pipeline.chain: a task or a group. -/
inductive ChainItem where
  | task : Task → ChainItem
  | group : TaskGroup → ChainItem

/-- The names a chain stage resolves to. -/
def ChainItem.names : ChainItem → List String
  | .task t => [t.name]
  | .group g => g.taskNames

/-- One stage of Pipeline.chain: every task name of the current stage gains
an edge on every name of the previous stage (acc.2); unknown names are
skipped by updateFirst just as _find_task returning None is skipped. -/
def chainStep (acc : Pipeline × List String) (item : ChainItem) : Pipeline × List String :=
  let current := item.names
  let p :=
    if acc.2.isEmpty then acc.1
    else current.foldl
      (fun p cur => { p with tasks := updateFirst p.tasks cur (fun tk => tk.afterL acc.2) })
      acc.1
  (p, current)

/-- Pipeline.chain: every task of stage k gains a dependency edge on every
task of stage k-1; returns a group holding the last stage's names. -/
def Pipeline.chain (p : Pipeline) (items : List ChainItem) : Pipeline × TaskGroup :=
  let r := items.foldl chainStep (p, [])
  (r.1, ⟨"chain", r.2⟩)

/-- Pipeline.parallel: returns a group of the given task names and touches
nothing else (it neither takes nor produces a pipeline state). -/
def Pipeline.parallel (name : String) (tasks : List Task) : TaskGroup :=
  ⟨name, tasks.map (·.name)⟩

/-- Pipeline._find_task: the first task with the given name. -/
def Pipeline.findTask (p : Pipeline) (n : String) : Option Task :=
  p.tasks.find? (fun t => t.name == n)

/-! ## Serialization (Task._to_dict and Pipeline._build_output) -/

/-- The auto-generated key for the positional output at index idx. -/
def autoKey (idx : Nat) : String := "output_" ++ toString idx

/-- The renamed key used when autoKey collides: the index appended again. -/
def autoKey2 (idx : Nat) : String := "output_" ++ toString idx ++ "_" ++ toString idx

/-- The collision loop of Task._to_dict:
`while key in merged: key = f"output_(idx)_(idx)"`.
Fuel counts loop-body executions; none means the loop had not exited when
the fuel ran out (the loop re-binds the same string, so once the renamed
key also collides it never exits). -/
def autoKeyLoop (fuel : Nat) (merged : List (String × String)) (idx : Nat) (key : String) :
    Option String :=
  match fuel with
  | 0 => if hasKey merged key then none else some key
  | f + 1 => if hasKey merged key then autoKeyLoop f merged idx (autoKey2 idx) else some key

/-- The `for idx, val in enumerate(self._outputs_v1)` merge loop. -/
def mergeLoop (fuel : Nat) (merged : List (String × String)) (idx : Nat) :
    List String → Option (List (String × String))
  | [] => some merged
  | v :: vs =>
    match autoKeyLoop fuel merged idx (autoKey idx) with
    | none => none
    | some key => mergeLoop fuel (dinsert merged key v) (idx + 1) vs

/-- Merging named and positional outputs, starting from the copied named map. -/
def mergeOutputs (fuel : Nat) (named : List (String × String)) (v1 : List String) :
    Option (List (String × String)) :=
  mergeLoop fuel named 0 v1

/-- A string-valued JSON object. -/
def strObj (m : List (String × String)) : JVal :=
  .obj (m.map (fun kv => (kv.1, JVal.s kv.2)))

/-- The "outputs" entry of Task._to_dict (empty list when omitted). -/
def outputsEntry (fuel : Nat) (t : Task) : Option (List (String × JVal)) :=
  if ¬t.outputs.isEmpty ∧ ¬t.outputsV1.isEmpty then
    match mergeOutputs fuel t.outputs t.outputsV1 with
    | none => none
    | some m => some [("outputs", strObj m)]
  else if ¬t.outputs.isEmpty then some [("outputs", strObj t.outputs)]
  else if ¬t.outputsV1.isEmpty then
    some [("outputs", strObj (t.outputsV1.enum.map (fun iv => (autoKey iv.1, iv.2))))]
  else some []

/-- Task._k8s_to_dict. -/
def k8sToDict (t : Task) : Option (List (String × JVal)) :=
  if t.k8s = none ∧ t.k8sRaw = "" then none
  else
    let d : List (String × JVal) :=
      match t.k8s with
      | some k =>
        (if k.memory ≠ "" then [("memory", JVal.s k.memory)] else []) ++
        (if k.cpu ≠ "" then [("cpu", JVal.s k.cpu)] else []) ++
        (if k.gpu ≠ 0 then [("gpu", JVal.n k.gpu)] else []) ++
        (if k.raw ≠ "" then [("raw", JVal.s k.raw)] else [])
      | none => []
    let d := if t.k8sRaw ≠ "" then dinsert d "raw" (JVal.s t.k8sRaw) else d
    if d.isEmpty then none else some d

/-- Task._semantic_to_dict. -/
def semanticToDict (t : Task) : Option (List (String × JVal)) :=
  if t.covers.isEmpty ∧ t.intent = "" ∧ t.criticality = "" then none
  else some
    ((if ¬t.covers.isEmpty then [("covers", JVal.arr (t.covers.map .s))] else []) ++
     (if t.intent ≠ "" then [("intent", JVal.s t.intent)] else []) ++
     (if t.criticality ≠ "" then [("criticality", JVal.s t.criticality)] else []))

/-- Task._ai_hooks_to_dict. -/
def aiHooksToDict (t : Task) : Option (List (String × JVal)) :=
  if t.onFail = "" ∧ t.select = "" then none
  else some
    ((if t.onFail ≠ "" then [("on_fail", JVal.s t.onFail)] else []) ++
     (if t.select ≠ "" then [("select", JVal.s t.select)] else []))

/-- The gate object of a gate task: strategy always, the rest when set. -/
def gateDict (t : Task) : List (String × JVal) :=
  [("strategy", JVal.s t.gateStrategy)] ++
  (if t.gateTimeout ≠ 0 then [("timeout", JVal.n t.gateTimeout)] else []) ++
  (if t.gateMessage ≠ "" then [("message", JVal.s t.gateMessage)] else []) ++
  (if t.gateEnvVar ≠ "" then [("env_var", JVal.s t.gateEnvVar)] else []) ++
  (if t.gateFilePath ≠ "" then [("file_path", JVal.s t.gateFilePath)] else [])

/-- An optional string entry. -/
def sEntry (key v : String) : List (String × JVal) :=
  if v ≠ "" then [(key, JVal.s v)] else []

/-- A mount entry as serialized. -/
def mountToJ (m : Mount) : JVal :=
  .obj [("resource", .s m.resource), ("path", .s m.path), ("type", .s m.mtype)]

/-- A task-input entry as serialized. -/
def taskInputToJ (ti : TaskInput) : JVal :=
  .obj [("from_task", .s ti.fromTask), ("output", .s ti.output), ("dest", .s ti.dest)]

/-- A secret reference as serialized. -/
def secretRefToJ (r : SecretRef) : JVal :=
  .obj [("name", .s r.name), ("source", .s r.source), ("key", .s r.key)]

/-- A service entry as serialized. -/
def serviceToJ (s : Service) : JVal :=
  .obj [("image", .s s.image), ("name", .s s.name)]

/-- A capability entry as serialized: "value" only when truthy. -/
def capabilityToJ (c : Capability) : JVal :=
  .obj ([("name", .s c.name)] ++ (if c.value ≠ "" then [("value", .s c.value)] else []))

/-- The container / workdir / env entries of Task._to_dict. -/
def pre1Seg (t : Task) : List (String × JVal) :=
  sEntry "container" t.container ++
  sEntry "workdir" t.workdir ++
  (if ¬t.env.isEmpty then [("env", strObj t.env)] else [])

/-- The mounts entry of Task._to_dict. -/
def mountsSeg (t : Task) : List (String × JVal) :=
  if ¬t.mounts.isEmpty then [("mounts", JVal.arr (t.mounts.map mountToJ))] else []

/-- The inputs / task_inputs entries of Task._to_dict. -/
def pre2Seg (t : Task) : List (String × JVal) :=
  (if ¬t.inputs.isEmpty then [("inputs", JVal.arr (t.inputs.map .s))] else []) ++
  (if ¬t.taskInputs.isEmpty then
    [("task_inputs", JVal.arr (t.taskInputs.map taskInputToJ))] else [])

/-- The depends_on .. target entries of Task._to_dict. -/
def post1Seg (t : Task) : List (String × JVal) :=
  (if ¬t.dependsOn.isEmpty then [("depends_on", JVal.arr (t.dependsOn.map .s))] else []) ++
  sEntry "when" t.whenCond ++
  (if ¬t.secrets.isEmpty then [("secrets", JVal.arr (t.secrets.map .s))] else []) ++
  (if ¬t.secretRefs.isEmpty then
    [("secret_refs", JVal.arr (t.secretRefs.map secretRefToJ))] else []) ++
  (if ¬t.matrix.isEmpty then
    [("matrix", JVal.obj (t.matrix.map (fun kv => (kv.1, JVal.arr (kv.2.map .s)))))]
   else []) ++
  (if ¬t.services.isEmpty then [("services", JVal.arr (t.services.map serviceToJ))] else []) ++
  (if t.retry ≠ 0 then [("retry", JVal.n t.retry)] else []) ++
  (if t.timeout ≠ 0 then [("timeout", JVal.n t.timeout)] else []) ++
  sEntry "target" t.target

/-- The k8s entry of Task._to_dict. -/
def k8sSeg (t : Task) : List (String × JVal) :=
  match k8sToDict t with
  | some kd => [("k8s", JVal.obj kd)]
  | none => []

/-- The requires .. ai_hooks entries of Task._to_dict. -/
def post2Seg (t : Task) : List (String × JVal) :=
  (if ¬t.requires.isEmpty then [("requires", JVal.arr (t.requires.map .s))] else []) ++
  (if ¬t.provides.isEmpty then
    [("provides", JVal.arr (t.provides.map capabilityToJ))] else []) ++
  (if ¬t.needs.isEmpty then [("needs", JVal.arr (t.needs.map .s))] else []) ++
  (match semanticToDict t with
   | some sd => [("semantic", JVal.obj sd)]
   | none => []) ++
  (match aiHooksToDict t with
   | some ad => [("ai_hooks", JVal.obj ad)]
   | none => [])

/-- The gate entry of Task._to_dict: present exactly on gate nodes. -/
def gateSeg (t : Task) : List (String × JVal) :=
  if t.isGate then [("gate", JVal.obj (gateDict t))] else []

/-- Task._to_dict: each conditional `d[key] = value` of the Python source
appends a fresh literal key, so the dict is the concatenation of the
per-field entries in source order (name, command, container, workdir, env,
mounts, inputs, task_inputs, outputs, depends_on, when, secrets,
secret_refs, matrix, services, retry, timeout, target, k8s, requires,
provides, needs, semantic, ai_hooks, gate).  The only partial part is the
positional-output merge, hence the fuel and the Option. -/
def taskToDict (fuel : Nat) (t : Task) : Option (List (String × JVal)) :=
  (outputsEntry fuel t).map (fun outs =>
    [("name", JVal.s t.name)] ++
    sEntry "command" t.command ++
    pre1Seg t ++
    mountsSeg t ++
    pre2Seg t ++
    outs ++
    post1Seg t ++
    k8sSeg t ++
    post2Seg t ++
    gateSeg t)

/-- The helper _k8s_defaults_to_dict: note it ignores the raw field. -/
def k8sDefaultsToDict (k : K8sOptions) : Option (List (String × JVal)) :=
  let d : List (String × JVal) :=
    (if k.memory ≠ "" then [("memory", JVal.s k.memory)] else []) ++
    (if k.cpu ≠ "" then [("cpu", JVal.s k.cpu)] else []) ++
    (if k.gpu ≠ 0 then [("gpu", JVal.n k.gpu)] else [])
  if d.isEmpty then none else some d

/-- Pipeline._has_v2_features. -/
def hasV2Features (p : Pipeline) : Bool :=
  ¬p.dirs.isEmpty || ¬p.caches.isEmpty ||
    p.tasks.any (fun t => t.container ≠ "" || ¬t.mounts.isEmpty)

/-- Directory._to_resource. -/
def dirToResource (d : Directory) : JVal :=
  .obj ([("type", .s "directory"), ("path", .s d.path)] ++
    (if ¬d.globs.isEmpty then [("globs", JVal.arr (d.globs.map .s))] else []))

/-- CacheVolume._to_resource. -/
def cacheToResource (c : CacheVolume) : JVal :=
  .obj [("type", .s "cache"), ("name", .s c.name)]

/-- Resource._to_resource. -/
def Resource.toResource : Resource → JVal
  | .dir d => dirToResource d
  | .cache c => cacheToResource c

/-- The resources map of Pipeline._build_output: dirs, then caches, then any
mount-registered resource whose id is not already present. -/
def resourcesDict (p : Pipeline) : List (String × JVal) :=
  let r := p.dirs.foldl (fun acc d => dinsert acc d.id (dirToResource d)) []
  let r := p.caches.foldl (fun acc c => dinsert acc c.name (cacheToResource c)) r
  p.registeredResources.foldl
    (fun acc kv => if hasKey acc kv.1 then acc else acc ++ [(kv.1, kv.2.toResource)]) r

/-- The per-task step of Pipeline._build_output: serialize the task and merge
the pipeline-level quantity defaults when the task emitted no k8s block. -/
def emitTask (fuel : Nat) (defaults : Option K8sOptions) (t : Task) :
    Option (List (String × JVal)) :=
  match taskToDict fuel t with
  | none => none
  | some td =>
    match defaults with
    | some ks =>
      if hasKey td "k8s" then some td
      else
        match k8sDefaultsToDict ks with
        | none => some td
        | some kd => some (dinsert td "k8s" (JVal.obj kd))
    | none => some td

/-- Pipeline._build_output. -/
def buildOutput (fuel : Nat) (p : Pipeline) : Option (List (String × JVal)) :=
  let version := if hasV2Features p then "2" else "1"
  let out := [("version", JVal.s version)]
  let out :=
    if version = "2" then
      let res := resourcesDict p
      if res.isEmpty then out else out ++ [("resources", JVal.obj res)]
    else out
  match p.tasks.mapM (emitTask fuel p.k8sDefaults) with
  | none => none
  | some tds => some (out ++ [("tasks", JVal.arr (tds.map JVal.obj))])

/-! ## Jaro-Winkler similarity (_jaro_similarity, _jaro_winkler, _best_match)

Strings are lists of characters; Python floats become rationals. -/

/-- The inner window scan of the first loop of _jaro_similarity: the first
index j in [start, stop) whose character is unmatched and equals c. -/
def findInWindow (s2 : List Char) (s2m : List Bool) (c : Char) (start stop : Nat) : Option Nat :=
  (List.range' start (stop - start)).find? (fun j => !(s2m.getD j true) && (s2.get? j == some c))

/-- One iteration (index i, character c) of the match-assignment loop.  The
s1 flags are produced one per iteration (the Python code writes flag i during
iteration i of a pre-allocated array); the s2 flags are updated in place. -/
def matchStep (s2 : List Char) (md : Nat) (st : List Bool × List Bool × Nat) (ic : Nat × Char) :
    List Bool × List Bool × Nat :=
  let start := ic.1 - md
  let stop := min (ic.1 + md + 1) s2.length
  match findInWindow s2 st.2.1 ic.2 start stop with
  | some j => (st.1 ++ [true], st.2.1.set j true, st.2.2 + 1)
  | none => (st.1 ++ [false], st.2.1, st.2.2)

/-- The greedy match assignment: returns (s1_matches, s2_matches, matches). -/
def jaroMatch (s1 s2 : List Char) (md : Nat) : List Bool × List Bool × Nat :=
  s1.enum.foldl (matchStep s2 md) ([], List.replicate s2.length false, 0)

/-- `while not s2_matches[k]: k += 1` — the next matched index of s2 at or
after k (s2.length when none is left, a state the Python code never reaches
on the inputs produced by the match loop). -/
def nextTrue (s2m : List Bool) (k : Nat) : Nat :=
  match (List.range' k (s2m.length - k)).find? (fun j => s2m.getD j false) with
  | some j => j
  | none => s2m.length

/-- The transposition-counting loop: walks the matched characters of s1 in
index order against the matched characters of s2 in index order. -/
def transLoop (s1 s2 : List Char) (s1m s2m : List Bool) : Nat :=
  (s1.enum.foldl
    (fun (st : Nat × Nat) ic =>
      if s1m.getD ic.1 false then
        let k := nextTrue s2m st.1
        (k + 1, if s2.get? k == some ic.2 then st.2 else st.2 + 1)
      else st)
    (0, 0)).2

/-- _jaro_similarity. -/
def jaroSimilarity (s1 s2 : List Char) : ℚ :=
  if s1 = s2 then 1
  else
    let len1 := s1.length
    let len2 := s2.length
    if len1 = 0 ∨ len2 = 0 then 0
    else
      let md := max len1 len2 / 2 - 1
      let r := jaroMatch s1 s2 md
      let m := r.2.2
      if m = 0 then 0
      else
        let t := transLoop s1 s2 r.1 r.2.1
        ((m : ℚ) / len1 + (m : ℚ) / len2 + ((m : ℚ) - (t : ℚ) / 2) / m) / 3

/-- The common-prefix loop of _jaro_winkler, fueled by min(4, len1, len2);
the recursion also stops at the end of either string, so fuel 4 is exact. -/
def cpLen : List Char → List Char → Nat → Nat
  | a :: as, b :: bs, n + 1 => if a = b then 1 + cpLen as bs n else 0
  | _, _, _ => 0

/-- _jaro_winkler: Jaro plus the common-prefix bonus. -/
def jaroWinkler (s1 s2 : List Char) : ℚ :=
  let jaro := jaroSimilarity s1 s2
  let p := cpLen s1 s2 4
  jaro + (p : ℚ) * (1 / 10) * (1 - jaro)

/-- _jaro_winkler on Lean strings. -/
def jaroWinklerS (s1 s2 : String) : ℚ := jaroWinkler s1.data s2.data

/-- _best_match with the default threshold 0.8: the candidate set is a Python
set; we iterate it in insertion order. -/
def bestMatch (name : String) (candidates : List String) : String :=
  (candidates.foldl
    (fun (best : String × ℚ) c =>
      let score := jaroWinklerS name c
      if score > best.2 ∧ score ≥ 4 / 5 then (c, score) else best)
    ("", 0)).1

/-! ## Validation (Pipeline.validate, _detect_cycles, _validate_k8s) -/

/-- The structured ValidationError: code, message, task, suggestion. -/
structure ValidationError where
  code : String
  message : String
  task : String := ""
  suggestion : String := ""
deriving Repr, DecidableEq

/-- Stage 1: every non-gate task needs a non-empty command. -/
def checkCommands : List Task → Except ValidationError Unit
  | [] => .ok ()
  | t :: ts =>
    if ¬t.isGate ∧ t.command = "" then
      .error ⟨"MISSING_COMMAND", "task '" ++ t.name ++ "' has no command", t.name, ""⟩
    else checkCommands ts

/-- The UNKNOWN_DEPENDENCY error, with the optional did-you-mean suffix. -/
def unknownDepError (tname dep suggestion : String) : ValidationError :=
  let msg := "task '" ++ tname ++ "' depends on unknown task '" ++ dep ++ "'" ++
    (if suggestion ≠ "" then " (did you mean '" ++ suggestion ++ "'?)" else "")
  ⟨"UNKNOWN_DEPENDENCY", msg, tname, suggestion⟩

/-- Stage 2 inner loop over one task's dependencies. -/
def checkDepList (allNames : List String) (tname : String) :
    List String → Except ValidationError Unit
  | [] => .ok ()
  | dep :: rest =>
    if dep ∈ allNames then checkDepList allNames tname rest
    else .error (unknownDepError tname dep (bestMatch dep allNames))

/-- Stage 2: every dependency must name a declared task. -/
def checkDeps (allNames : List String) : List Task → Except ValidationError Unit
  | [] => .ok ()
  | t :: ts =>
    match checkDepList allNames t.name t.dependsOn with
    | .error e => .error e
    | .ok _ => checkDeps allNames ts

/-- The three colors of the DFS. -/
inductive Color where
  | white
  | gray
  | black
deriving Repr, DecidableEq

/-- The DFS state: the color map and the current path. -/
abbrev CycSt := List (String × Color) × List String

/-- color[node] (None when the node is unknown). -/
def lookupColor (colors : List (String × Color)) (k : String) : Option Color :=
  (colors.find? (fun kv => kv.1 == k)).map (·.2)

/-- color[node] = c. -/
def setColor (colors : List (String × Color)) (k : String) (c : Color) :
    List (String × Color) :=
  colors.map (fun kv => if kv.1 == k then (k, c) else kv)

/-- adj.get(node, []). -/
def lookupAdj (adj : List (String × List String)) (k : String) : List String :=
  ((adj.find? (fun kv => kv.1 == k)).map (·.2)).getD []

/-- The CYCLE_DETECTED error: the cycle is the path from the first occurrence
of dep through the closing edge.  Note the task field stays empty. -/
def cycleError (path : List String) (dep : String) : ValidationError :=
  let cyc := path.drop (path.indexOf dep) ++ [dep]
  ⟨"CYCLE_DETECTED", "dependency cycle: " ++ String.intercalate " -> " cyc, "", ""⟩

/-- One step of the `for dep in adj.get(node, [])` loop of visit: a state
that already errored (or ran out of fuel) passes through unchanged, which is
exactly the early exit of the Python loop. -/
def depStep (visitF : String → CycSt → Option (Except ValidationError CycSt))
    (acc : Option (Except ValidationError CycSt)) (dep : String) :
    Option (Except ValidationError CycSt) :=
  match acc with
  | some (.ok st) =>
    match lookupColor st.1 dep with
    | none => some (.ok st)
    | some .gray => some (.error (cycleError st.2 dep))
    | some .white => visitF dep st
    | some .black => some (.ok st)
  | other => other

/-- The recursive visit of _detect_cycles.  Fuel bounds the recursion depth;
each nested call grays a previously white node, so #tasks + 1 never runs
out.  Structural recursion on the fuel so that concrete runs reduce. -/
def visit : Nat → List (String × List String) → String → CycSt →
    Option (Except ValidationError CycSt)
  | 0, _, _, _ => none
  | fuel + 1, adj, node, st =>
    let colors := setColor st.1 node .gray
    let path := st.2 ++ [node]
    match (lookupAdj adj node).foldl (depStep (visit fuel adj)) (some (.ok (colors, path))) with
    | none => none
    | some (.error e) => some (.error e)
    | some (.ok st2) => some (.ok (setColor st2.1 node .black, st2.2.dropLast))

/-- The top-level loop of _detect_cycles over all (still white) tasks. -/
def detectLoop (fuel : Nat) (adj : List (String × List String)) :
    List String → CycSt → Option (Except ValidationError CycSt)
  | [], st => some (.ok st)
  | n :: ns, st =>
    if lookupColor st.1 n = some .white then
      match visit fuel adj n st with
      | none => none
      | some (.error e) => some (.error e)
      | some (.ok st2) => detectLoop fuel adj ns st2
    else detectLoop fuel adj ns st

/-- _detect_cycles. -/
def detectCycles (fuel : Nat) (tasks : List Task) : Option (Except ValidationError Unit) :=
  let colors := tasks.map (fun t => (t.name, Color.white))
  let adj := tasks.map (fun t => (t.name, t.dependsOn))
  match detectLoop fuel adj (tasks.map (·.name)) (colors, []) with
  | none => none
  | some (.error e) => some (.error e)
  | some (.ok _) => some (.ok ())

/-- A memory unit letter of the regex [EPTGMK]. -/
def isMemUnit (c : Char) : Bool :=
  c == 'E' || c == 'P' || c == 'T' || c == 'G' || c == 'M' || c == 'K'

/-- The anchored regex match for a k8s memory quantity: digits, a unit letter,
an optional trailing i. -/
def memFormatOk (s : String) : Bool :=
  let cs := s.data
  let ds := cs.takeWhile Char.isDigit
  match cs.dropWhile Char.isDigit with
  | [u] => !ds.isEmpty && isMemUnit u
  | [u, c] => !ds.isEmpty && isMemUnit u && c == 'i'
  | _ => false

/-- The anchored regex match for a k8s cpu quantity: an integer, an integer
with trailing m, or a decimal with digits on both sides of the dot. -/
def cpuFormatOk (s : String) : Bool :=
  let cs := s.data
  let ds := cs.takeWhile Char.isDigit
  match cs.dropWhile Char.isDigit with
  | [] => !ds.isEmpty
  | ['m'] => !ds.isEmpty
  | '.' :: fs => !ds.isEmpty && !fs.isEmpty && fs.all Char.isDigit
  | _ => false

/-- _validate_k8s. -/
def validateK8sOpts (k : K8sOptions) (taskName : String) : Except ValidationError Unit :=
  if k.memory ≠ "" ∧ ¬memFormatOk k.memory then
    .error ⟨"INVALID_K8S",
      "task '" ++ taskName ++ "': invalid k8s memory format '" ++ k.memory ++
        "' (expected e.g. '512Mi', '4Gi')", taskName, ""⟩
  else if k.cpu ≠ "" ∧ ¬cpuFormatOk k.cpu then
    .error ⟨"INVALID_K8S",
      "task '" ++ taskName ++ "': invalid k8s cpu format '" ++ k.cpu ++
        "' (expected e.g. '500m', '2', '1.5')", taskName, ""⟩
  else .ok ()

/-- Stage 4: the effective quantity spec (the task's own, else the pipeline
default) of every task is format-checked. -/
def checkK8s (defaults : Option K8sOptions) : List Task → Except ValidationError Unit
  | [] => .ok ()
  | t :: ts =>
    let eff := match t.k8s with
      | some k => some k
      | none => defaults
    match eff with
    | some k =>
      match validateK8sOpts k t.name with
      | .error e => .error e
      | .ok _ => checkK8s defaults ts
    | none => checkK8s defaults ts

/-- Pipeline.validate: the four stages in their fixed order, fail-fast.
none only when the cycle-detection fuel ran out. -/
def validateF (fuel : Nat) (p : Pipeline) : Option (Except ValidationError Unit) :=
  match checkCommands p.tasks with
  | .error e => some (.error e)
  | .ok _ =>
    match checkDeps p.taskNames p.tasks with
    | .error e => some (.error e)
    | .ok _ =>
      match detectCycles fuel p.tasks with
      | none => none
      | some (.error e) => some (.error e)
      | some (.ok _) =>
        match checkK8s p.k8sDefaults p.tasks with
        | .error e => some (.error e)
        | .ok _ => some (.ok ())

/-- Pipeline.to_dict: validate, then build the output. -/
def toDictF (fuel : Nat) (p : Pipeline) :
    Option (Except ValidationError (List (String × JVal))) :=
  match validateF fuel p with
  | none => none
  | some (.error e) => some (.error e)
  | some (.ok _) => (buildOutput fuel p).map .ok

/-! ## Lemmas about association-list dictionaries -/

theorem lookupD_nil (k : String) : lookupD ([] : List (String × α)) k = none := rfl

theorem lookupD_append (d1 d2 : List (String × α)) (k : String) :
    lookupD (d1 ++ d2) k = (lookupD d1 k).or (lookupD d2 k) := by
  unfold lookupD
  rw [List.find?_append]
  cases List.find? (fun kv => kv.1 == k) d1 <;> simp

theorem lookupD_cons (k k' : String) (v : α) (d : List (String × α)) :
    lookupD ((k', v) :: d) k = if k' = k then some v else lookupD d k := by
  unfold lookupD
  rw [List.find?_cons]
  by_cases h : k' = k
  · simp [h]
  · have hb : ((k', v).1 == k) = false := by simpa using h
    rw [hb]
    simp [h]

theorem lookupD_single (k k' : String) (v : α) :
    lookupD [(k', v)] k = if k' = k then some v else none := by
  rw [lookupD_cons]
  rfl

theorem lookupD_eq_none (d : List (String × α)) (k : String)
    (h : ∀ kv ∈ d, kv.1 ≠ k) : lookupD d k = none := by
  have hf : List.find? (fun kv => kv.1 == k) d = none :=
    List.find?_eq_none.mpr (by intro x hx; simpa using h x hx)
  unfold lookupD
  rw [hf]
  rfl

@[simp] theorem mem_ite_nil_iff {c : Prop} [Decidable c] {x kv : α} :
    kv ∈ (if c then [x] else []) ↔ c ∧ kv = x := by
  split <;> simp_all

/-- Composition helper: a pointwise property over an append. -/
theorem mem_append_imp {A B : List α} {P : α → Prop} (hA : ∀ x ∈ A, P x)
    (hB : ∀ x ∈ B, P x) : ∀ x ∈ A ++ B, P x := by
  intro x hx
  rcases List.mem_append.mp hx with h | h
  exacts [hA x h, hB x h]

theorem keys_iteSingle {c : Prop} [Decidable c] {k : String} {v : JVal} :
    ∀ kv ∈ (if c then [(k, v)] else []), kv.1 = k := by
  intro kv hv
  rcases mem_ite_nil_iff.mp hv with ⟨_, rfl⟩
  rfl

theorem keys_sEntry {k v : String} : ∀ kv ∈ sEntry k v, kv.1 = k := by
  intro kv hv
  unfold sEntry at hv
  rcases mem_ite_nil_iff.mp hv with ⟨_, rfl⟩
  rfl

/-! ### Keys of the Task._to_dict segments -/

theorem pre1Seg_keys (t : Task) :
    ∀ kv ∈ pre1Seg t, kv.1 = "container" ∨ kv.1 = "workdir" ∨ kv.1 = "env" := by
  unfold pre1Seg
  refine mem_append_imp (mem_append_imp ?_ ?_) ?_ <;> intro kv hv
  · rw [keys_sEntry kv hv]; simp
  · rw [keys_sEntry kv hv]; simp
  · rw [keys_iteSingle kv hv]; simp

theorem mountsSeg_keys (t : Task) : ∀ kv ∈ mountsSeg t, kv.1 = "mounts" := by
  unfold mountsSeg
  exact keys_iteSingle

theorem pre2Seg_keys (t : Task) :
    ∀ kv ∈ pre2Seg t, kv.1 = "inputs" ∨ kv.1 = "task_inputs" := by
  unfold pre2Seg
  refine mem_append_imp ?_ ?_ <;> intro kv hv
  · rw [keys_iteSingle kv hv]; simp
  · rw [keys_iteSingle kv hv]; simp

theorem post1Seg_keys (t : Task) :
    ∀ kv ∈ post1Seg t,
      kv.1 = "depends_on" ∨ kv.1 = "when" ∨ kv.1 = "secrets" ∨ kv.1 = "secret_refs" ∨
      kv.1 = "matrix" ∨ kv.1 = "services" ∨ kv.1 = "retry" ∨ kv.1 = "timeout" ∨
      kv.1 = "target" := by
  unfold post1Seg
  refine mem_append_imp (mem_append_imp (mem_append_imp (mem_append_imp (mem_append_imp
    (mem_append_imp (mem_append_imp (mem_append_imp ?_ ?_) ?_) ?_) ?_) ?_) ?_) ?_) ?_
    <;> intro kv hv
  · rw [keys_iteSingle kv hv]; simp
  · rw [keys_sEntry kv hv]; simp
  · rw [keys_iteSingle kv hv]; simp
  · rw [keys_iteSingle kv hv]; simp
  · rw [keys_iteSingle kv hv]; simp
  · rw [keys_iteSingle kv hv]; simp
  · rw [keys_iteSingle kv hv]; simp
  · rw [keys_iteSingle kv hv]; simp
  · rw [keys_sEntry kv hv]; simp

theorem k8sSeg_keys (t : Task) : ∀ kv ∈ k8sSeg t, kv.1 = "k8s" := by
  intro kv hv
  unfold k8sSeg at hv
  rcases hk : k8sToDict t with _ | kd <;> rw [hk] at hv
  · cases hv
  · rcases List.mem_singleton.mp hv with rfl
    rfl

theorem post2Seg_keys (t : Task) :
    ∀ kv ∈ post2Seg t,
      kv.1 = "requires" ∨ kv.1 = "provides" ∨ kv.1 = "needs" ∨ kv.1 = "semantic" ∨
      kv.1 = "ai_hooks" := by
  unfold post2Seg
  refine mem_append_imp (mem_append_imp (mem_append_imp (mem_append_imp ?_ ?_) ?_) ?_) ?_
  · intro kv hv; rw [keys_iteSingle kv hv]; simp
  · intro kv hv; rw [keys_iteSingle kv hv]; simp
  · intro kv hv; rw [keys_iteSingle kv hv]; simp
  · rcases hs : semanticToDict t with _ | sd <;> simp only [hs] <;> intro kv hv
    · cases hv
    · rcases List.mem_singleton.mp hv with rfl; simp
  · rcases ha : aiHooksToDict t with _ | ad <;> simp only [ha] <;> intro kv hv
    · cases hv
    · rcases List.mem_singleton.mp hv with rfl; simp

theorem gateSeg_keys (t : Task) : ∀ kv ∈ gateSeg t, kv.1 = "gate" := by
  unfold gateSeg
  exact keys_iteSingle

theorem outputsEntry_shape {fuel : Nat} {t : Task} {outs : List (String × JVal)}
    (h : outputsEntry fuel t = some outs) :
    outs = [] ∨ ∃ x, outs = [("outputs", x)] := by
  unfold outputsEntry at h
  by_cases c1 : ¬t.outputs.isEmpty ∧ ¬t.outputsV1.isEmpty
  · rw [if_pos c1] at h
    rcases hm : mergeOutputs fuel t.outputs t.outputsV1 with _ | m <;> rw [hm] at h
    · simp at h
    · injection h with h
      exact .inr ⟨_, h.symm⟩
  · rw [if_neg c1] at h
    by_cases c2 : ¬t.outputs.isEmpty
    · rw [if_pos c2] at h
      injection h with h
      exact .inr ⟨_, h.symm⟩
    · rw [if_neg c2] at h
      by_cases c3 : ¬t.outputsV1.isEmpty
      · rw [if_pos c3] at h
        injection h with h
        exact .inr ⟨_, h.symm⟩
      · rw [if_neg c3] at h
        injection h with h
        exact .inl h.symm

theorem outputsEntry_keys {fuel : Nat} {t : Task} {outs : List (String × JVal)}
    (h : outputsEntry fuel t = some outs) : ∀ kv ∈ outs, kv.1 = "outputs" := by
  intro kv hv
  rcases outputsEntry_shape h with rfl | ⟨x, rfl⟩
  · cases hv
  · rw [List.mem_singleton.mp hv]

/-! ### lookupD on the segments -/

theorem lookupD_sEntry_self (k v : String) :
    lookupD (sEntry k v) k = if v = "" then none else some (JVal.s v) := by
  unfold sEntry
  by_cases hv : v = ""
  · simp [hv, lookupD_nil]
  · simp [hv, lookupD_single]

theorem lookupD_sEntry_ne (k : String) (v : String) (k' : String) (h : k ≠ k') :
    lookupD (sEntry k v) k' = none := by
  unfold sEntry
  split
  · simp [lookupD_single, h]
  · rfl

theorem lookupD_pre1Seg (t : Task) (k : String)
    (h1 : "container" ≠ k) (h2 : "workdir" ≠ k) (h3 : "env" ≠ k) :
    lookupD (pre1Seg t) k = none :=
  lookupD_eq_none _ _ (fun kv hv => by
    rcases pre1Seg_keys t kv hv with e | e | e <;> rw [e] <;> assumption)

theorem lookupD_mountsSeg (t : Task) (k : String) (h : "mounts" ≠ k) :
    lookupD (mountsSeg t) k = none :=
  lookupD_eq_none _ _ (fun kv hv => by rw [mountsSeg_keys t kv hv]; exact h)

theorem lookupD_pre2Seg (t : Task) (k : String)
    (h1 : "inputs" ≠ k) (h2 : "task_inputs" ≠ k) :
    lookupD (pre2Seg t) k = none :=
  lookupD_eq_none _ _ (fun kv hv => by
    rcases pre2Seg_keys t kv hv with e | e <;> rw [e] <;> assumption)

theorem lookupD_post1Seg (t : Task) (k : String)
    (h1 : "depends_on" ≠ k) (h2 : "when" ≠ k) (h3 : "secrets" ≠ k)
    (h4 : "secret_refs" ≠ k) (h5 : "matrix" ≠ k) (h6 : "services" ≠ k)
    (h7 : "retry" ≠ k) (h8 : "timeout" ≠ k) (h9 : "target" ≠ k) :
    lookupD (post1Seg t) k = none :=
  lookupD_eq_none _ _ (fun kv hv => by
    rcases post1Seg_keys t kv hv with e | e | e | e | e | e | e | e | e <;>
      rw [e] <;> assumption)

theorem lookupD_k8sSeg_ne (t : Task) (k : String) (h : "k8s" ≠ k) :
    lookupD (k8sSeg t) k = none :=
  lookupD_eq_none _ _ (fun kv hv => by rw [k8sSeg_keys t kv hv]; exact h)

theorem lookupD_post2Seg (t : Task) (k : String)
    (h1 : "requires" ≠ k) (h2 : "provides" ≠ k) (h3 : "needs" ≠ k)
    (h4 : "semantic" ≠ k) (h5 : "ai_hooks" ≠ k) :
    lookupD (post2Seg t) k = none :=
  lookupD_eq_none _ _ (fun kv hv => by
    rcases post2Seg_keys t kv hv with e | e | e | e | e <;> rw [e] <;> assumption)

theorem lookupD_gateSeg_ne (t : Task) (k : String) (h : "gate" ≠ k) :
    lookupD (gateSeg t) k = none :=
  lookupD_eq_none _ _ (fun kv hv => by rw [gateSeg_keys t kv hv]; exact h)

theorem lookupD_outs_ne {fuel : Nat} {t : Task} {outs : List (String × JVal)}
    (h : outputsEntry fuel t = some outs) (k : String) (hk : "outputs" ≠ k) :
    lookupD outs k = none :=
  lookupD_eq_none _ _ (fun kv hv => by rw [outputsEntry_keys h kv hv]; exact hk)

theorem lookupD_gateSeg_self (t : Task) :
    lookupD (gateSeg t) "gate" =
      if t.isGate then some (JVal.obj (gateDict t)) else none := by
  unfold gateSeg
  split
  · simp [lookupD_single]
  · rfl

theorem lookupD_k8sSeg_self (t : Task) :
    lookupD (k8sSeg t) "k8s" = (k8sToDict t).map JVal.obj := by
  unfold k8sSeg
  cases k8sToDict t
  · rfl
  · simp [lookupD_single]

theorem lookupD_mountsSeg_self (t : Task) :
    lookupD (mountsSeg t) "mounts" =
      if t.mounts.isEmpty then none else some (JVal.arr (t.mounts.map mountToJ)) := by
  unfold mountsSeg
  by_cases h : t.mounts.isEmpty <;> simp [h, lookupD_single, lookupD_nil]

/-- Task._to_dict succeeds exactly when the outputs entry does, and then the
dict is the concatenation of the segments. -/
theorem taskToDict_some_iff {fuel : Nat} {t : Task} {d : List (String × JVal)} :
    taskToDict fuel t = some d ↔ ∃ outs, outputsEntry fuel t = some outs ∧
      d = [("name", JVal.s t.name)] ++ sEntry "command" t.command ++ pre1Seg t ++
        mountsSeg t ++ pre2Seg t ++ outs ++ post1Seg t ++ k8sSeg t ++ post2Seg t ++
        gateSeg t := by
  unfold taskToDict
  cases outputsEntry fuel t <;> simp [eq_comm]

/-! ### lookupD on a full task dict -/

theorem taskToDict_lookup_name {fuel : Nat} {t : Task} {d : List (String × JVal)}
    (h : taskToDict fuel t = some d) : lookupD d "name" = some (JVal.s t.name) := by
  rcases taskToDict_some_iff.mp h with ⟨outs, ho, rfl⟩
  simp only [lookupD_append, List.singleton_append, lookupD_cons]
  simp

theorem taskToDict_lookup_command {fuel : Nat} {t : Task} {d : List (String × JVal)}
    (h : taskToDict fuel t = some d) :
    lookupD d "command" = if t.command = "" then none else some (JVal.s t.command) := by
  rcases taskToDict_some_iff.mp h with ⟨outs, ho, rfl⟩
  simp only [lookupD_append, List.singleton_append, lookupD_cons,
    lookupD_sEntry_self,
    lookupD_pre1Seg t "command" (by decide) (by decide) (by decide),
    lookupD_mountsSeg t "command" (by decide),
    lookupD_pre2Seg t "command" (by decide) (by decide),
    lookupD_outs_ne ho "command" (by decide),
    lookupD_post1Seg t "command" (by decide) (by decide) (by decide) (by decide) (by decide)
      (by decide) (by decide) (by decide) (by decide),
    lookupD_k8sSeg_ne t "command" (by decide),
    lookupD_post2Seg t "command" (by decide) (by decide) (by decide) (by decide) (by decide),
    lookupD_gateSeg_ne t "command" (by decide)]
  rw [if_neg (by decide : ¬("name" = "command"))]
  simp

theorem taskToDict_lookup_gate {fuel : Nat} {t : Task} {d : List (String × JVal)}
    (h : taskToDict fuel t = some d) :
    lookupD d "gate" = if t.isGate then some (JVal.obj (gateDict t)) else none := by
  rcases taskToDict_some_iff.mp h with ⟨outs, ho, rfl⟩
  simp only [lookupD_append, List.singleton_append, lookupD_cons,
    lookupD_sEntry_ne "command" t.command "gate" (by decide),
    lookupD_pre1Seg t "gate" (by decide) (by decide) (by decide),
    lookupD_mountsSeg t "gate" (by decide),
    lookupD_pre2Seg t "gate" (by decide) (by decide),
    lookupD_outs_ne ho "gate" (by decide),
    lookupD_post1Seg t "gate" (by decide) (by decide) (by decide) (by decide) (by decide)
      (by decide) (by decide) (by decide) (by decide),
    lookupD_k8sSeg_ne t "gate" (by decide),
    lookupD_post2Seg t "gate" (by decide) (by decide) (by decide) (by decide) (by decide),
    lookupD_gateSeg_self]
  simp

theorem taskToDict_lookup_k8s {fuel : Nat} {t : Task} {d : List (String × JVal)}
    (h : taskToDict fuel t = some d) :
    lookupD d "k8s" = (k8sToDict t).map JVal.obj := by
  rcases taskToDict_some_iff.mp h with ⟨outs, ho, rfl⟩
  simp only [lookupD_append, List.singleton_append, lookupD_cons,
    lookupD_sEntry_ne "command" t.command "k8s" (by decide),
    lookupD_pre1Seg t "k8s" (by decide) (by decide) (by decide),
    lookupD_mountsSeg t "k8s" (by decide),
    lookupD_pre2Seg t "k8s" (by decide) (by decide),
    lookupD_outs_ne ho "k8s" (by decide),
    lookupD_post1Seg t "k8s" (by decide) (by decide) (by decide) (by decide) (by decide)
      (by decide) (by decide) (by decide) (by decide),
    lookupD_k8sSeg_self,
    lookupD_post2Seg t "k8s" (by decide) (by decide) (by decide) (by decide) (by decide),
    lookupD_gateSeg_ne t "k8s" (by decide)]
  cases k8sToDict t <;> simp

theorem taskToDict_lookup_mounts {fuel : Nat} {t : Task} {d : List (String × JVal)}
    (h : taskToDict fuel t = some d) :
    lookupD d "mounts" =
      if t.mounts.isEmpty then none else some (JVal.arr (t.mounts.map mountToJ)) := by
  rcases taskToDict_some_iff.mp h with ⟨outs, ho, rfl⟩
  simp only [lookupD_append, List.singleton_append, lookupD_cons,
    lookupD_sEntry_ne "command" t.command "mounts" (by decide),
    lookupD_pre1Seg t "mounts" (by decide) (by decide) (by decide),
    lookupD_mountsSeg_self,
    lookupD_pre2Seg t "mounts" (by decide) (by decide),
    lookupD_outs_ne ho "mounts" (by decide),
    lookupD_post1Seg t "mounts" (by decide) (by decide) (by decide) (by decide) (by decide)
      (by decide) (by decide) (by decide) (by decide),
    lookupD_k8sSeg_ne t "mounts" (by decide),
    lookupD_post2Seg t "mounts" (by decide) (by decide) (by decide) (by decide) (by decide),
    lookupD_gateSeg_ne t "mounts" (by decide)]
  rw [if_neg (by decide : ¬("name" = "mounts"))]
  simp

/-! ### lookupD on a gate object -/

theorem gateDict_lookup_strategy (t : Task) :
    lookupD (gateDict t) "strategy" = some (JVal.s t.gateStrategy) := by
  unfold gateDict
  simp only [lookupD_append, List.singleton_append, lookupD_cons]
  simp

theorem gateDict_lookup_timeout (t : Task) :
    lookupD (gateDict t) "timeout" =
      if t.gateTimeout = 0 then none else some (JVal.n t.gateTimeout) := by
  unfold gateDict
  split_ifs <;>
    simp_all [lookupD_append, lookupD_single, lookupD_cons, lookupD_nil, sEntry]

theorem gateDict_lookup_message (t : Task) :
    lookupD (gateDict t) "message" =
      if t.gateMessage = "" then none else some (JVal.s t.gateMessage) := by
  unfold gateDict
  split_ifs <;>
    simp_all [lookupD_append, lookupD_single, lookupD_cons, lookupD_nil, sEntry]

theorem gateDict_lookup_envVar (t : Task) :
    lookupD (gateDict t) "env_var" =
      if t.gateEnvVar = "" then none else some (JVal.s t.gateEnvVar) := by
  unfold gateDict
  split_ifs <;>
    simp_all [lookupD_append, lookupD_single, lookupD_cons, lookupD_nil, sEntry]

theorem gateDict_lookup_filePath (t : Task) :
    lookupD (gateDict t) "file_path" =
      if t.gateFilePath = "" then none else some (JVal.s t.gateFilePath) := by
  unfold gateDict
  split_ifs <;>
    simp_all [lookupD_append, lookupD_single, lookupD_cons, lookupD_nil, sEntry]

/-! ## Claim C1: gate projection -/

/-- A gate created through Pipeline.gate on which run() was then called. -/
def c1Gate : Task :=
  match Pipeline.addGate {} "approve" with
  | .ok pt =>
    match pt.2.run "echo ok" with
    | .ok t => t
    | .error _ => pt.2
  | .error _ => mkTask "approve" true

/-- The serialized form of that gate. -/
def c1Dict : List (String × JVal) := (taskToDict 1 c1Gate).getD []

/-- C1, counterexample: the claim says a gate task never emits a `command`
field even when a command was set via run(); but Task._to_dict emits
`command` for any task whose command string is non-empty, gates included.
The gate built via Pipeline.gate plus run("echo ok") serializes with both a
`command` field and a `gate` object. -/
theorem C1_counterexample :
    c1Gate.isGate = true ∧
    (taskToDict 1 c1Gate).bind (fun d => lookupD d "command") = some (JVal.s "echo ok") ∧
    ((taskToDict 1 c1Gate).bind (fun d => lookupD d "gate")).isSome = true :=
  ⟨rfl, rfl, rfl⟩

/-- C1, amended: every serialized gate task contains a `gate` object carrying
the strategy and, exactly when set, the timeout, message, env var and file
path; and it contains a `command` field precisely when a (necessarily
non-empty) command string was set on it. -/
theorem C1_gate_projection (fuel : Nat) (t : Task) (d : List (String × JVal))
    (hg : t.isGate = true) (h : taskToDict fuel t = some d) :
    (∃ g, lookupD d "gate" = some (JVal.obj g) ∧
      lookupD g "strategy" = some (JVal.s t.gateStrategy) ∧
      lookupD g "timeout" = (if t.gateTimeout = 0 then none else some (JVal.n t.gateTimeout)) ∧
      lookupD g "message" = (if t.gateMessage = "" then none else some (JVal.s t.gateMessage)) ∧
      lookupD g "env_var" = (if t.gateEnvVar = "" then none else some (JVal.s t.gateEnvVar)) ∧
      lookupD g "file_path" =
        (if t.gateFilePath = "" then none else some (JVal.s t.gateFilePath))) ∧
    lookupD d "command" = (if t.command = "" then none else some (JVal.s t.command)) := by
  refine ⟨⟨gateDict t, ?_, gateDict_lookup_strategy t, gateDict_lookup_timeout t,
    gateDict_lookup_message t, gateDict_lookup_envVar t, gateDict_lookup_filePath t⟩,
    taskToDict_lookup_command h⟩
  rw [taskToDict_lookup_gate h, if_pos hg]

/-! ## Validator shape lemmas (for C3 and C6) -/

/-- The MISSING_COMMAND error for a task. -/
def missingCommandError (t : Task) : ValidationError :=
  ⟨"MISSING_COMMAND", "task '" ++ t.name ++ "' has no command", t.name, ""⟩

/-- The first non-gate task with an empty command, in declaration order. -/
def firstMissing (ts : List Task) : Option Task :=
  ts.find? (fun t => !t.isGate && (t.command == ""))

theorem checkCommands_of_firstMissing {ts : List Task} {t : Task}
    (h : firstMissing ts = some t) :
    checkCommands ts = .error (missingCommandError t) := by
  induction ts with
  | nil => cases h
  | cons a as ih =>
    unfold firstMissing at h
    rw [List.find?_cons] at h
    unfold checkCommands
    by_cases c : ¬a.isGate = true ∧ a.command = ""
    · have hb : (!a.isGate && (a.command == "")) = true := by
        cases g : a.isGate
        · simp [c.2]
        · exact absurd g c.1
      rw [hb] at h
      injection h with h
      subst h
      rw [if_pos c]
      rfl
    · have hb : (!a.isGate && (a.command == "")) = false := by
        by_cases g : a.isGate = true
        · simp [g]
        · have hc : ¬a.command = "" := fun hc => c ⟨g, hc⟩
          simp [hc]
      rw [hb] at h
      rw [if_neg c]
      exact ih h

theorem checkCommands_error_shape {ts : List Task} {e : ValidationError}
    (h : checkCommands ts = .error e) :
    ∃ t ∈ ts, ¬t.isGate = true ∧ t.command = "" ∧ e = missingCommandError t := by
  induction ts with
  | nil => cases h
  | cons a as ih =>
    unfold checkCommands at h
    by_cases c : ¬a.isGate = true ∧ a.command = ""
    · rw [if_pos c] at h
      injection h with h
      exact ⟨a, List.mem_cons_self a as, c.1, c.2, h.symm⟩
    · rw [if_neg c] at h
      rcases ih h with ⟨t, ht, h1, h2, h3⟩
      exact ⟨t, List.mem_cons_of_mem a ht, h1, h2, h3⟩

theorem checkDepList_error_shape {allNames : List String} {tname : String}
    {deps : List String} {e : ValidationError}
    (h : checkDepList allNames tname deps = .error e) :
    ∃ dep, dep ∉ allNames ∧ e = unknownDepError tname dep (bestMatch dep allNames) := by
  induction deps with
  | nil => cases h
  | cons dep rest ih =>
    unfold checkDepList at h
    by_cases c : dep ∈ allNames
    · rw [if_pos c] at h
      exact ih h
    · rw [if_neg c] at h
      injection h with h
      exact ⟨dep, c, h.symm⟩

theorem checkDeps_error_shape {allNames : List String} {ts : List Task}
    {e : ValidationError} (h : checkDeps allNames ts = .error e) :
    ∃ t ∈ ts, ∃ dep, dep ∉ allNames ∧
      e = unknownDepError t.name dep (bestMatch dep allNames) := by
  induction ts with
  | nil => cases h
  | cons a as ih =>
    unfold checkDeps at h
    rcases hd : checkDepList allNames a.name a.dependsOn with e' | u <;> rw [hd] at h
    · injection h with h
      subst h
      rcases checkDepList_error_shape hd with ⟨dep, hdep, he⟩
      exact ⟨a, List.mem_cons_self a as, dep, hdep, he⟩
    · rcases ih h with ⟨t, ht, dep, hdep, he⟩
      exact ⟨t, List.mem_cons_of_mem a ht, dep, hdep, he⟩

/-- Every error the dependency loop produces is either propagated from the
initial state or a cycleError / recursive-visit error. -/
theorem foldl_depStep_error {visitF : String → CycSt → Option (Except ValidationError CycSt)}
    {P : ValidationError → Prop}
    (hP : ∀ dep st e, visitF dep st = some (.error e) → P e)
    (hC : ∀ pa dep, P (cycleError pa dep)) :
    ∀ (deps : List String) (acc : Option (Except ValidationError CycSt))
      (e : ValidationError),
      deps.foldl (depStep visitF) acc = some (.error e) →
      acc = some (.error e) ∨ P e := by
  intro deps
  induction deps with
  | nil => intro acc e h; exact .inl h
  | cons dep rest ih =>
    intro acc e h
    rw [List.foldl_cons] at h
    rcases ih (depStep visitF acc dep) e h with hstep | hp
    · rcases acc with _ | r
      · exact .inl hstep
      · rcases r with e' | st
        · exact .inl hstep
        · simp only [depStep] at hstep
          rcases hc : lookupColor st.1 dep with _ | c <;> rw [hc] at hstep
          · simp at hstep
          · rcases c with _ | _ | _
            · exact .inr (hP dep st e hstep)
            · injection hstep with hstep
              injection hstep with hstep
              exact .inr (hstep ▸ hC st.2 dep)
            · simp at hstep
    · exact .inr hp

/-- Every error the cycle DFS raises is a cycleError (in particular its task
field is empty). -/
theorem visit_error_shape :
    ∀ fuel adj node st e, visit fuel adj node st = some (.error e) →
      ∃ pa dep, e = cycleError pa dep := by
  intro fuel
  induction fuel with
  | zero => intro adj node st e h; simp [visit] at h
  | succ f ih =>
    intro adj node st e h
    simp only [visit] at h
    rcases hv : (lookupAdj adj node).foldl (depStep (visit f adj))
        (some (.ok (setColor st.1 node .gray, st.2 ++ [node]))) with _ | r <;> rw [hv] at h
    · cases h
    · rcases r with e' | st2
      · injection h with h
        injection h with h
        subst h
        rcases foldl_depStep_error (fun dep st e hh => ih adj dep st e hh)
            (fun pa dep => ⟨pa, dep, rfl⟩) _ _ _ hv with hacc | hp
        · cases hacc
        · exact hp
      · simp at h

theorem detectLoop_error_shape {fuel : Nat} {adj : List (String × List String)} :
    ∀ {ns : List String} {st : CycSt} {e : ValidationError},
      detectLoop fuel adj ns st = some (.error e) → ∃ pa dep, e = cycleError pa dep := by
  intro ns
  induction ns with
  | nil => intro st e h; cases h
  | cons n rest ih =>
    intro st e h
    unfold detectLoop at h
    by_cases c : lookupColor st.1 n = some .white
    · rw [if_pos c] at h
      rcases hv : visit fuel adj n st with _ | r <;> rw [hv] at h
      · cases h
      · rcases r with e' | st2
        · injection h with h
          injection h with h
          subst h
          exact visit_error_shape fuel adj n st _ hv
        · exact ih h
    · rw [if_neg c] at h
      exact ih h

theorem detectCycles_error_shape {fuel : Nat} {ts : List Task} {e : ValidationError}
    (h : detectCycles fuel ts = some (.error e)) : ∃ pa dep, e = cycleError pa dep := by
  simp only [detectCycles] at h
  rcases hd : detectLoop fuel (ts.map fun t => (t.name, t.dependsOn)) (ts.map (·.name))
      (ts.map fun t => (t.name, Color.white), []) with _ | r <;> rw [hd] at h
  · cases h
  · rcases r with e' | u
    · injection h with h
      injection h with h
      subst h
      exact detectLoop_error_shape hd
    · cases h

theorem validateK8sOpts_error_shape {k : K8sOptions} {tn : String} {e : ValidationError}
    (h : validateK8sOpts k tn = .error e) :
    e.code = "INVALID_K8S" ∧ e.task = tn ∧
      (e.message = "task '" ++ tn ++ "': invalid k8s memory format '" ++ k.memory ++
        "' (expected e.g. '512Mi', '4Gi')" ∨
       e.message = "task '" ++ tn ++ "': invalid k8s cpu format '" ++ k.cpu ++
        "' (expected e.g. '500m', '2', '1.5')") := by
  unfold validateK8sOpts at h
  split_ifs at h <;> injection h with h <;> subst h <;>
    exact ⟨rfl, rfl, by first | exact .inl rfl | exact .inr rfl⟩

theorem checkK8s_error_shape {defaults : Option K8sOptions} {ts : List Task}
    {e : ValidationError} (h : checkK8s defaults ts = .error e) :
    ∃ t ∈ ts, ∃ k, validateK8sOpts k t.name = .error e := by
  induction ts with
  | nil => cases h
  | cons a as ih =>
    simp only [checkK8s] at h
    split at h
    · split at h
      · injection h with h
        subst h
        exact ⟨a, List.mem_cons_self a as, _, by assumption⟩
      · rcases ih h with ⟨t, ht, k', hk⟩
        exact ⟨t, List.mem_cons_of_mem a ht, k', hk⟩
    · rcases ih h with ⟨t, ht, k', hk⟩
      exact ⟨t, List.mem_cons_of_mem a ht, k', hk⟩

/-- Non-emptiness of a string with a non-empty literal head. -/
theorem str_append_ne_empty (s t : String) (h : s.length ≠ 0) : s ++ t ≠ "" := by
  intro he
  have hl : s.length + t.length = 0 := by
    have := congrArg String.length he
    rwa [String.length_append] at this
  omega

/-! ## Claim C6: validation order, fail-fast -/

/-- C6: validate checks command presence first and stops at the first
violation.  Whenever some non-gate task has an empty command — whatever other
violations (unknown dependencies, cycles, bad quantity specs) the pipeline
also contains — validate raises MISSING_COMMAND naming the first such task,
and the later checks are never reached. -/
theorem C6_missing_command_first (fuel : Nat) (p : Pipeline) (t : Task)
    (h : firstMissing p.tasks = some t) :
    validateF fuel p = some (.error (missingCommandError t)) := by
  unfold validateF
  rw [checkCommands_of_firstMissing h]

/-- A task with no command that also depends on itself (a cycle) and names an
unknown dependency. -/
def c6Task : Task := { mkTask "a" false with dependsOn := ["a", "ghost"] }

def c6P : Pipeline := { tasks := [c6Task], taskNames := ["a"] }

/-- C6, witness: on the concrete pipeline with a missing command, an unknown
dependency and a self-cycle, validate reports MISSING_COMMAND. -/
theorem C6_witness :
    firstMissing c6P.tasks = some c6Task ∧
    validateF 2 c6P = some (.error (missingCommandError c6Task)) :=
  ⟨rfl, C6_missing_command_first 2 c6P c6Task rfl⟩

theorem append_ne_empty_of_left (s t : String) (hs : s ≠ "") : s ++ t ≠ "" := by
  intro he
  apply hs
  have hl := congrArg String.length he
  rw [String.length_append] at hl
  have hz : s.length = 0 := by
    have h0 : ("" : String).length = 0 := rfl
    omega
  cases s with
  | mk data =>
    have hd : data = [] := List.length_eq_zero.mp hz
    simp [hd]

/-! ## Claim C3: Tier-2 error structure -/

/-- C3, amended: every Tier-2 validation error carries one of the four stable
kinds and a non-empty message; MISSING_COMMAND, UNKNOWN_DEPENDENCY and
INVALID_K8S carry the (non-empty) name of an offending task, but a
CYCLE_DETECTED error carries an empty task field — the cycle is only spelled
out inside the message. -/
theorem C3_error_structure (fuel : Nat) (p : Pipeline) (e : ValidationError)
    (hn : ∀ t ∈ p.tasks, t.name ≠ "")
    (h : validateF fuel p = some (.error e)) :
    (e.code = "MISSING_COMMAND" ∨ e.code = "UNKNOWN_DEPENDENCY" ∨
      e.code = "CYCLE_DETECTED" ∨ e.code = "INVALID_K8S") ∧
    e.message ≠ "" ∧
    (e.code ≠ "CYCLE_DETECTED" → e.task ≠ "" ∧ e.task ∈ p.tasks.map (·.name)) ∧
    (e.code = "CYCLE_DETECTED" → e.task = "") := by
  unfold validateF at h
  rcases hc : checkCommands p.tasks with e1 | u <;> rw [hc] at h
  · injection h with h
    injection h with h
    subst h
    rcases checkCommands_error_shape hc with ⟨t, ht, _, _, rfl⟩
    refine ⟨.inl rfl, ?_, ?_, ?_⟩
    · exact append_ne_empty_of_left _ _ (append_ne_empty_of_left _ _ (by decide))
    · intro _
      exact ⟨hn t ht, List.mem_map_of_mem _ ht⟩
    · intro hcy
      rw [show (missingCommandError t).code = "MISSING_COMMAND" from rfl] at hcy
      exact absurd hcy (by decide)
  · rcases hd : checkDeps p.taskNames p.tasks with e1 | u2 <;> rw [hd] at h
    · injection h with h
      injection h with h
      subst h
      rcases checkDeps_error_shape hd with ⟨t, ht, dep, hdep, rfl⟩
      refine ⟨.inr (.inl rfl), ?_, ?_, ?_⟩
      · exact append_ne_empty_of_left _ _ (append_ne_empty_of_left _ _
          (append_ne_empty_of_left _ _ (append_ne_empty_of_left _ _
            (append_ne_empty_of_left _ _ (by decide)))))
      · intro _
        exact ⟨hn t ht, List.mem_map_of_mem _ ht⟩
      · intro hcy
        rw [show (unknownDepError t.name dep (bestMatch dep p.taskNames)).code =
          "UNKNOWN_DEPENDENCY" from rfl] at hcy
        exact absurd hcy (by decide)
    · rcases hcy : detectCycles fuel p.tasks with _ | r <;> rw [hcy] at h
      · cases h
      · rcases r with e1 | u3
        · injection h with h
          injection h with h
          subst h
          rcases detectCycles_error_shape hcy with ⟨pa, dep, rfl⟩
          refine ⟨.inr (.inr (.inl rfl)), ?_, ?_, ?_⟩
          · exact append_ne_empty_of_left _ _ (by decide)
          · intro hne
            exact absurd rfl hne
          · intro _
            rfl
        · rcases hk : checkK8s p.k8sDefaults p.tasks with e1 | u4 <;> rw [hk] at h
          · injection h with h
            injection h with h
            subst h
            rcases checkK8s_error_shape hk with ⟨t, ht, k, hv⟩
            rcases validateK8sOpts_error_shape hv with ⟨hcode, htask, hmsg⟩
            refine ⟨.inr (.inr (.inr hcode)), ?_, ?_, ?_⟩
            · rcases hmsg with hm | hm <;> rw [hm] <;>
                exact append_ne_empty_of_left _ _ (append_ne_empty_of_left _ _
                  (append_ne_empty_of_left _ _ (append_ne_empty_of_left _ _ (by decide))))
            · intro _
              rw [htask]
              exact ⟨hn t ht, List.mem_map_of_mem _ ht⟩
            · intro hcy2
              rw [hcode] at hcy2
              exact absurd hcy2 (by decide)
          · cases h

/-- A valid one-task pipeline whose only flaw is a self-cycle. -/
def c3P : Pipeline :=
  { tasks := [{ mkTask "a" false with command := "x", dependsOn := ["a"] }],
    taskNames := ["a"] }

/-- The error validate raises on it. -/
def c3Err : ValidationError :=
  ⟨"CYCLE_DETECTED", "dependency cycle: a -> a", "", ""⟩

/-- C3, counterexample: the claim says a CYCLE_DETECTED error identifies an
offending task; but _detect_cycles raises ValidationError without the task
argument, so the structured task field is the empty string. -/
theorem C3_counterexample :
    validateF 2 c3P = some (.error c3Err) ∧ c3Err.code = "CYCLE_DETECTED" ∧
      c3Err.task = "" :=
  ⟨rfl, rfl, rfl⟩

/-- C3, witness: the amended theorem applied to the self-cycle pipeline. -/
theorem C3_witness :
    (∀ t ∈ c3P.tasks, t.name ≠ "") ∧
    ((c3Err.code = "MISSING_COMMAND" ∨ c3Err.code = "UNKNOWN_DEPENDENCY" ∨
      c3Err.code = "CYCLE_DETECTED" ∨ c3Err.code = "INVALID_K8S") ∧
    c3Err.message ≠ "" ∧
    (c3Err.code ≠ "CYCLE_DETECTED" → c3Err.task ≠ "" ∧ c3Err.task ∈ c3P.tasks.map (·.name)) ∧
    (c3Err.code = "CYCLE_DETECTED" → c3Err.task = "")) :=
  ⟨by decide, C3_error_structure 2 c3P c3Err (by decide) rfl⟩

/-! ## Structure of Pipeline._build_output -/

theorem buildOutput_parts {fuel : Nat} {p : Pipeline} {d : List (String × JVal)}
    (h : buildOutput fuel p = some d) :
    ∃ tds, p.tasks.mapM (emitTask fuel p.k8sDefaults) = some tds ∧
      d = [("version", JVal.s (if hasV2Features p then "2" else "1"))] ++
        (if hasV2Features p = true ∧ (resourcesDict p).isEmpty = false then
          [("resources", JVal.obj (resourcesDict p))] else []) ++
        [("tasks", JVal.arr (tds.map JVal.obj))] := by
  simp only [buildOutput] at h
  rcases hm : p.tasks.mapM (emitTask fuel p.k8sDefaults) with _ | tds <;> rw [hm] at h
  · cases h
  · injection h with h
    refine ⟨tds, rfl, ?_⟩
    subst h
    by_cases hv : hasV2Features p <;> by_cases hr : (resourcesDict p).isEmpty <;>
      simp [hv, hr]

theorem buildOutput_lookup_version {fuel : Nat} {p : Pipeline} {d : List (String × JVal)}
    (h : buildOutput fuel p = some d) :
    lookupD d "version" = some (JVal.s (if hasV2Features p then "2" else "1")) := by
  rcases buildOutput_parts h with ⟨tds, hm, rfl⟩
  simp [lookupD_append, lookupD_cons]

theorem buildOutput_lookup_resources_none {fuel : Nat} {p : Pipeline}
    {d : List (String × JVal)} (h : buildOutput fuel p = some d)
    (hz : hasV2Features p = false ∨ resourcesDict p = []) :
    lookupD d "resources" = none := by
  rcases buildOutput_parts h with ⟨tds, hm, rfl⟩
  have hcond : ¬(hasV2Features p = true ∧ (resourcesDict p).isEmpty = false) := by
    rcases hz with hz | hz <;> simp [hz]
  rw [if_neg hcond]
  simp [lookupD_append, lookupD_cons, lookupD_single, lookupD_nil]

theorem buildOutput_lookup_resources_some {fuel : Nat} {p : Pipeline}
    {d : List (String × JVal)} (h : buildOutput fuel p = some d)
    (hv : hasV2Features p = true) (hr : resourcesDict p ≠ []) :
    lookupD d "resources" = some (JVal.obj (resourcesDict p)) := by
  rcases buildOutput_parts h with ⟨tds, hm, rfl⟩
  have hcond : hasV2Features p = true ∧ (resourcesDict p).isEmpty = false :=
    ⟨hv, by simp [hr]⟩
  rw [if_pos hcond]
  simp [lookupD_append, lookupD_cons, lookupD_single, lookupD_nil]

theorem buildOutput_lookup_tasks {fuel : Nat} {p : Pipeline} {d : List (String × JVal)}
    (h : buildOutput fuel p = some d) :
    ∃ tds, p.tasks.mapM (emitTask fuel p.k8sDefaults) = some tds ∧
      lookupD d "tasks" = some (JVal.arr (tds.map JVal.obj)) := by
  rcases buildOutput_parts h with ⟨tds, hm, rfl⟩
  refine ⟨tds, hm, ?_⟩
  by_cases hcond : hasV2Features p = true ∧ (resourcesDict p).isEmpty = false
  · rw [if_pos hcond]
    simp [lookupD_append, lookupD_cons, lookupD_single, lookupD_nil]
  · rw [if_neg hcond]
    simp [lookupD_append, lookupD_cons, lookupD_single, lookupD_nil]

/-! ## Claim C4: version inference -/

/-- The claim-side trigger condition for version "2". -/
theorem hasV2Features_iff (p : Pipeline)
    (hreg : p.registeredResources ≠ [] → ∃ t ∈ p.tasks, t.mounts ≠ []) :
    hasV2Features p = true ↔
      (p.dirs ≠ [] ∨ p.caches ≠ [] ∨ p.registeredResources ≠ [] ∨
        ∃ t ∈ p.tasks, t.container ≠ "" ∨ t.mounts ≠ []) := by
  unfold hasV2Features
  simp only [Bool.or_eq_true, decide_eq_true_eq, List.any_eq_true, List.isEmpty_eq_true,
    Bool.not_eq_true]
  constructor
  · rintro ((h | h) | ⟨t, ht, hc⟩)
    · exact .inl h
    · exact .inr (.inl h)
    · rcases hc with hc | hc
      · exact .inr (.inr (.inr ⟨t, ht, .inl hc⟩))
      · exact .inr (.inr (.inr ⟨t, ht, .inr hc⟩))
  · rintro (h | h | h | ⟨t, ht, hc⟩)
    · exact .inl (.inl h)
    · exact .inl (.inr h)
    · rcases hreg h with ⟨t, ht, hm⟩
      exact .inr ⟨t, ht, .inr hm⟩
    · rcases hc with hc | hc
      · exact .inr ⟨t, ht, .inl hc⟩
      · exact .inr ⟨t, ht, .inr hc⟩

/-- C4: the serialized version is "2" exactly when a resource was registered
(created via dir()/cache(), or referenced in a mount — which always also puts
a mount entry on some task, hence the hypothesis) or some task has a
container image or a non-empty mount list; otherwise it is "1". -/
theorem C4_version_inference (fuel : Nat) (p : Pipeline) (d : List (String × JVal))
    (hreg : p.registeredResources ≠ [] → ∃ t ∈ p.tasks, t.mounts ≠ [])
    (h : buildOutput fuel p = some d) :
    (lookupD d "version" = some (JVal.s "2") ↔
      (p.dirs ≠ [] ∨ p.caches ≠ [] ∨ p.registeredResources ≠ [] ∨
        ∃ t ∈ p.tasks, t.container ≠ "" ∨ t.mounts ≠ [])) ∧
    (lookupD d "version" = some (JVal.s "1") ↔
      ¬(p.dirs ≠ [] ∨ p.caches ≠ [] ∨ p.registeredResources ≠ [] ∨
        ∃ t ∈ p.tasks, t.container ≠ "" ∨ t.mounts ≠ [])) := by
  rw [buildOutput_lookup_version h]
  rw [← hasV2Features_iff p hreg]
  constructor
  · constructor
    · intro hv
      by_cases hb : hasV2Features p = true
      · exact hb
      · rw [if_neg hb] at hv
        injection hv with hv
        injection hv with hv
        exact absurd hv (by decide)
    · intro hb
      rw [if_pos hb]
  · constructor
    · intro hv
      by_cases hb : hasV2Features p = true
      · rw [if_pos hb] at hv
        injection hv with hv
        injection hv with hv
        exact absurd hv (by decide)
      · exact hb
    · intro hb
      rw [if_neg hb]

/-- A pipeline whose single task sets a container image. -/
def c4P : Pipeline :=
  { tasks := [{ mkTask "t" false with command := "x", container := "python:3.12" }],
    taskNames := ["t"] }

def c4Dict : List (String × JVal) := (buildOutput 1 c4P).getD []

/-- C4, witness: the container-bearing pipeline serializes at version "2". -/
theorem C4_witness :
    buildOutput 1 c4P = some c4Dict ∧
    ((lookupD c4Dict "version" = some (JVal.s "2") ↔
      (c4P.dirs ≠ [] ∨ c4P.caches ≠ [] ∨ c4P.registeredResources ≠ [] ∨
        ∃ t ∈ c4P.tasks, t.container ≠ "" ∨ t.mounts ≠ [])) ∧
    (lookupD c4Dict "version" = some (JVal.s "1") ↔
      ¬(c4P.dirs ≠ [] ∨ c4P.caches ≠ [] ∨ c4P.registeredResources ≠ [] ∨
        ∃ t ∈ c4P.tasks, t.container ≠ "" ∨ t.mounts ≠ []))) :=
  ⟨rfl, C4_version_inference 1 c4P c4Dict (by simp [c4P]) rfl⟩

/-! ## Claim C8: quantity defaults are merged only into tasks without one -/

theorem hasKey_eq_isSome (d : List (String × α)) (k : String) :
    hasKey d k = (lookupD d k).isSome := by
  unfold hasKey lookupD
  cases hf : d.find? (fun kv => kv.1 == k)
  · rw [List.find?_eq_none] at hf
    simp only [Option.map_none', Option.isSome_none]
    rw [List.any_eq_false]
    intro x hx
    exact hf x hx
  · simp only [Option.map_some', Option.isSome_some]
    rw [List.any_eq_true]
    have hmem := List.mem_of_find?_eq_some hf
    have hp := List.find?_some hf
    exact ⟨_, hmem, hp⟩

/-- C8: at serialization time the pipeline default quantity spec is merged
into a task's emitted object only when the task itself serialized no k8s
block; a task with its own spec is emitted untouched.  The embedding of
Task._to_dict and Pipeline._build_output is a pure function of the stored
task, so serialization cannot mutate the stored configuration and
re-serializing an unchanged pipeline yields the same value. -/
theorem C8_k8s_defaults (fuel : Nat) (defaults : Option K8sOptions) (t : Task)
    (td : List (String × JVal)) (ht : taskToDict fuel t = some td) :
    (∀ kd, k8sToDict t = some kd →
      emitTask fuel defaults t = some td ∧ lookupD td "k8s" = some (JVal.obj kd)) ∧
    (k8sToDict t = none →
      lookupD td "k8s" = none ∧
      emitTask fuel defaults t = some (td ++ (match defaults with
        | none => []
        | some ks =>
          match k8sDefaultsToDict ks with
          | none => []
          | some kd => [("k8s", JVal.obj kd)]))) := by
  have hlk := taskToDict_lookup_k8s ht
  constructor
  · intro kd hkd
    rw [hkd] at hlk
    have hkey : hasKey td "k8s" = true := by
      rw [hasKey_eq_isSome, hlk]
      rfl
    refine ⟨?_, hlk⟩
    rcases defaults with _ | ks
    · simp [emitTask, ht]
    · simp only [emitTask, ht]
      rw [if_pos hkey]
  · intro hkd
    rw [hkd] at hlk
    have hkey : hasKey td "k8s" = false := by
      rw [hasKey_eq_isSome, hlk]
      rfl
    refine ⟨hlk, ?_⟩
    rcases defaults with _ | ks
    · simp [emitTask, ht]
    · simp only [emitTask, ht]
      rw [if_neg (by simp [hkey])]
      rcases hdd : k8sDefaultsToDict ks with _ | kd <;> simp only [hdd]
      · simp
      · unfold dinsert
        rw [if_neg (by simp [hkey])]

/-- A task with no quantity spec of its own, and a non-empty default. -/
def c8Task : Task := { mkTask "t" false with command := "x" }

def c8Defaults : K8sOptions := { memory := "512Mi" }

def c8Dict : List (String × JVal) := (taskToDict 1 c8Task).getD []

/-- C8, witness: the theorem applied to the concrete task and defaults. -/
theorem C8_witness :
    taskToDict 1 c8Task = some c8Dict ∧
    ((∀ kd, k8sToDict c8Task = some kd →
      emitTask 1 (some c8Defaults) c8Task = some c8Dict ∧
        lookupD c8Dict "k8s" = some (JVal.obj kd)) ∧
    (k8sToDict c8Task = none →
      lookupD c8Dict "k8s" = none ∧
      emitTask 1 (some c8Defaults) c8Task = some (c8Dict ++ (match some c8Defaults with
        | none => []
        | some ks =>
          match k8sDefaultsToDict ks with
          | none => []
          | some kd => [("k8s", JVal.obj kd)])))) :=
  ⟨rfl, C8_k8s_defaults 1 (some c8Defaults) c8Task c8Dict rfl⟩

/-! ## Claim C10: mount_cwd yields a v2 document with a dangling resource id -/

theorem mapM_option_mem {α β : Type} {f : α → Option β} {l : List α} {l' : List β}
    (h : l.mapM f = some l') {a : α} (ha : a ∈ l) : ∃ b ∈ l', f a = some b := by
  induction l generalizing l' with
  | nil => cases ha
  | cons x xs ih =>
    rw [List.mapM_cons] at h
    rcases hfx : f x with _ | y <;> rw [hfx] at h
    · cases h
    · rcases hxs : xs.mapM f with _ | ys <;> rw [hxs] at h
      · cases h
      · injection h with h
        subst h
        rcases List.mem_cons.mp ha with rfl | ha
        · exact ⟨y, List.mem_cons_self _ _, hfx⟩
        · rcases ih hxs ha with ⟨b, hb, hfb⟩
          exact ⟨b, List.mem_cons_of_mem _ hb, hfb⟩

/-- The per-task emission either leaves the task dict untouched or appends a
single k8s entry at the end. -/
theorem emitTask_cases {fuel : Nat} {defaults : Option K8sOptions} {t : Task}
    {td : List (String × JVal)} (h : emitTask fuel defaults t = some td) :
    ∃ td0, taskToDict fuel t = some td0 ∧
      (td = td0 ∨ ∃ v, td = td0 ++ [("k8s", v)]) := by
  rcases htt : taskToDict fuel t with _ | td0 <;> rcases hdef : defaults with _ | ks <;>
    simp only [emitTask, htt, hdef] at h
  · cases h
  · cases h
  · injection h with h
    exact ⟨td0, rfl, .inl h.symm⟩
  · refine ⟨td0, rfl, ?_⟩
    by_cases hkey : hasKey td0 "k8s" = true
    · rw [if_pos hkey] at h
      injection h with h
      exact .inl h.symm
    · rw [if_neg hkey] at h
      rcases hdd : k8sDefaultsToDict ks with _ | kd <;> rw [hdd] at h
      · injection h with h
        exact .inl h.symm
      · injection h with h
        refine .inr ⟨JVal.obj kd, ?_⟩
        rw [← h]
        unfold dinsert
        rw [if_neg hkey]

/-- Lookups of keys other than k8s see through the defaults merge. -/
theorem emitTask_lookup_preserve {fuel : Nat} {defaults : Option K8sOptions} {t : Task}
    {td : List (String × JVal)} (h : emitTask fuel defaults t = some td)
    (k : String) (hk : "k8s" ≠ k) :
    ∃ td0, taskToDict fuel t = some td0 ∧ lookupD td k = lookupD td0 k := by
  rcases emitTask_cases h with ⟨td0, htt, heq | ⟨v, heq⟩⟩
  · exact ⟨td0, htt, by rw [heq]⟩
  · refine ⟨td0, htt, ?_⟩
    rw [heq, lookupD_append, lookupD_single, if_neg hk]
    cases lookupD td0 k <;> rfl

/-- C10: when the only version-2 trigger is a mount_cwd-style mount, the
document has version "2" and no resources key at all, yet the serialized
task's mounts reference the resource id "src:." — a version-2 IR may
reference a resource id with no entry in the (absent) resources map. -/
theorem C10_mount_cwd_dangling (fuel : Nat) (p : Pipeline) (d : List (String × JVal))
    (t : Task) (m : Mount)
    (hd : p.dirs = []) (hc : p.caches = []) (hrr : p.registeredResources = [])
    (ht : t ∈ p.tasks) (hm : m ∈ t.mounts) (hms : m.resource = "src:.")
    (h : buildOutput fuel p = some d) :
    lookupD d "version" = some (JVal.s "2") ∧
    lookupD d "resources" = none ∧
    ∃ td ms, emitTask fuel p.k8sDefaults t = some td ∧
      lookupD td "mounts" = some (JVal.arr ms) ∧
      JVal.obj [("resource", JVal.s "src:."), ("path", JVal.s m.path),
        ("type", JVal.s m.mtype)] ∈ ms := by
  have hmne : t.mounts.isEmpty = false := by
    cases hmm : t.mounts
    · rw [hmm] at hm
      cases hm
    · rfl
  have hv2 : hasV2Features p = true := by
    unfold hasV2Features
    rw [Bool.or_eq_true, Bool.or_eq_true, List.any_eq_true]
    exact .inr ⟨t, ht, by simp [hmne]⟩
  refine ⟨?_, ?_, ?_⟩
  · rw [buildOutput_lookup_version h, if_pos hv2]
  · refine buildOutput_lookup_resources_none h (.inr ?_)
    unfold resourcesDict
    rw [hd, hc, hrr]
    rfl
  · rcases buildOutput_parts h with ⟨tds, hmm, _⟩
    rcases mapM_option_mem hmm ht with ⟨td, _, hemit⟩
    rcases emitTask_lookup_preserve hemit "mounts" (by decide) with ⟨td0, htt, hlook⟩
    refine ⟨td, t.mounts.map mountToJ, hemit, ?_, ?_⟩
    · rw [hlook, taskToDict_lookup_mounts htt, if_neg (by simp [hmne])]
    · have : mountToJ m ∈ t.mounts.map mountToJ := List.mem_map_of_mem _ hm
      rw [show mountToJ m = JVal.obj [("resource", JVal.s "src:."), ("path", JVal.s m.path),
        ("type", JVal.s m.mtype)] from by rw [mountToJ, hms]] at this
      exact this

/-- A pipeline whose only task used run() and mount_cwd(). -/
def c10Task : Task := ({ mkTask "t" false with command := "x" } : Task).mountCwd

def c10P : Pipeline := { tasks := [c10Task], taskNames := ["t"] }

def c10Dict : List (String × JVal) := (buildOutput 1 c10P).getD []

def c10Mount : Mount := ⟨"src:.", "/work", "directory"⟩

/-- C10, witness: the theorem applied to the mount_cwd pipeline. -/
theorem C10_witness :
    buildOutput 1 c10P = some c10Dict ∧ c10Mount ∈ c10Task.mounts ∧
    (lookupD c10Dict "version" = some (JVal.s "2") ∧
    lookupD c10Dict "resources" = none ∧
    ∃ td ms, emitTask 1 c10P.k8sDefaults c10Task = some td ∧
      lookupD td "mounts" = some (JVal.arr ms) ∧
      JVal.obj [("resource", JVal.s "src:."), ("path", JVal.s c10Mount.path),
        ("type", JVal.s c10Mount.mtype)] ∈ ms) :=
  ⟨rfl, by decide,
    C10_mount_cwd_dangling 1 c10P c10Dict c10Task c10Mount rfl rfl rfl
      (by decide) (by decide) rfl rfl⟩

/-! ## Claim C9: resource deduplication -/

/-- The key list of a dict. -/
def keysOf (d : List (String × α)) : List String := d.map (·.1)

/-- How many entries of the dict carry key k. -/
def countKey (d : List (String × JVal)) (k : String) : Nat :=
  List.countP (fun kv => kv.1 == k) d

theorem keysOf_dinsert (d : List (String × α)) (k : String) (v : α) :
    keysOf (dinsert d k v) = if hasKey d k then keysOf d else keysOf d ++ [k] := by
  unfold dinsert keysOf
  split
  · rw [List.map_map]
    apply List.map_congr_left
    intro kv hkv
    by_cases hb : kv.1 == k
    · simp [Function.comp, hb, (eq_of_beq hb).symm]
    · simp [Function.comp, hb]
  · rw [List.map_append]
    rfl

theorem mem_keysOf_iff_hasKey {d : List (String × α)} {k : String} :
    k ∈ keysOf d ↔ hasKey d k = true := by
  unfold keysOf hasKey
  rw [List.any_eq_true, List.mem_map]
  constructor
  · rintro ⟨kv, hkv, rfl⟩
    exact ⟨kv, hkv, by simp⟩
  · rintro ⟨kv, hkv, hb⟩
    exact ⟨kv, hkv, eq_of_beq hb⟩

theorem keysOf_nodup_dinsert {d : List (String × α)} {k : String} {v : α}
    (h : (keysOf d).Nodup) : (keysOf (dinsert d k v)).Nodup := by
  rw [keysOf_dinsert]
  split
  · exact h
  · rename_i hk
    rw [List.nodup_append]
    refine ⟨h, List.nodup_singleton k, ?_⟩
    intro a ha hb
    rcases List.mem_singleton.mp hb with rfl
    exact hk (mem_keysOf_iff_hasKey.mp ha)

theorem hasKey_dinsert_mono {d : List (String × α)} {k k' : String} {v : α}
    (h : hasKey d k = true) : hasKey (dinsert d k' v) k = true := by
  rw [← mem_keysOf_iff_hasKey] at h ⊢
  rw [keysOf_dinsert]
  split
  · exact h
  · exact List.mem_append_left _ h

theorem hasKey_dinsert_self {d : List (String × α)} {k : String} {v : α} :
    hasKey (dinsert d k v) k = true := by
  rw [← mem_keysOf_iff_hasKey, keysOf_dinsert]
  split
  · rename_i hk
    exact mem_keysOf_iff_hasKey.mpr hk
  · exact List.mem_append_right _ (List.mem_singleton_self k)

/-- The three folds of resourcesDict preserve key-Nodup and key presence. -/
theorem foldl_dinsert_nodup {β : Type} (f : β → String) (g : β → JVal) :
    ∀ (l : List β) (acc : List (String × JVal)), (keysOf acc).Nodup →
      (keysOf (l.foldl (fun a x => dinsert a (f x) (g x)) acc)).Nodup := by
  intro l
  induction l with
  | nil => intro acc h; exact h
  | cons x xs ih =>
    intro acc h
    exact ih _ (keysOf_nodup_dinsert h)

theorem foldl_dinsert_hasKey_mono {β : Type} (f : β → String) (g : β → JVal) :
    ∀ (l : List β) (acc : List (String × JVal)) (k : String), hasKey acc k = true →
      hasKey (l.foldl (fun a x => dinsert a (f x) (g x)) acc) k = true := by
  intro l
  induction l with
  | nil => intro acc k h; exact h
  | cons x xs ih =>
    intro acc k h
    exact ih _ _ (hasKey_dinsert_mono h)

theorem foldl_dinsert_hasKey_intro {β : Type} (f : β → String) (g : β → JVal) :
    ∀ (l : List β) (acc : List (String × JVal)) (x : β), x ∈ l →
      hasKey (l.foldl (fun a y => dinsert a (f y) (g y)) acc) (f x) = true := by
  intro l
  induction l with
  | nil => intro acc x hx; cases hx
  | cons y ys ih =>
    intro acc x hx
    rcases List.mem_cons.mp hx with rfl | hx
    · exact foldl_dinsert_hasKey_mono f g ys _ _ hasKey_dinsert_self
    · exact ih _ _ hx

theorem foldl_guard_nodup :
    ∀ (l : List (String × Resource)) (acc : List (String × JVal)), (keysOf acc).Nodup →
      (keysOf (l.foldl
        (fun a kv => if hasKey a kv.1 then a else a ++ [(kv.1, kv.2.toResource)]) acc)).Nodup := by
  intro l
  induction l with
  | nil => intro acc h; exact h
  | cons x xs ih =>
    intro acc h
    apply ih
    dsimp only
    split
    · exact h
    · rename_i hk
      unfold keysOf
      rw [List.map_append, List.nodup_append]
      refine ⟨h, List.nodup_singleton _, ?_⟩
      intro a ha hb
      rcases List.mem_singleton.mp hb with rfl
      exact hk (mem_keysOf_iff_hasKey.mp ha)

theorem foldl_guard_hasKey_mono :
    ∀ (l : List (String × Resource)) (acc : List (String × JVal)) (k : String),
      hasKey acc k = true →
      hasKey (l.foldl
        (fun a kv => if hasKey a kv.1 then a else a ++ [(kv.1, kv.2.toResource)]) acc) k = true := by
  intro l
  induction l with
  | nil => intro acc k h; exact h
  | cons x xs ih =>
    intro acc k h
    apply ih
    dsimp only
    split
    · exact h
    · rw [← mem_keysOf_iff_hasKey] at h ⊢
      unfold keysOf at h ⊢
      rw [List.map_append]
      exact List.mem_append_left _ h

theorem resourcesDict_keys_nodup (p : Pipeline) : (keysOf (resourcesDict p)).Nodup := by
  unfold resourcesDict
  apply foldl_guard_nodup
  apply foldl_dinsert_nodup
  apply foldl_dinsert_nodup
  exact List.nodup_nil

theorem resourcesDict_hasKey_dir {p : Pipeline} {dd : Directory} (h : dd ∈ p.dirs) :
    hasKey (resourcesDict p) dd.id = true := by
  unfold resourcesDict
  apply foldl_guard_hasKey_mono
  apply foldl_dinsert_hasKey_mono
  exact foldl_dinsert_hasKey_intro _ _ _ _ _ h

theorem resourcesDict_hasKey_cache {p : Pipeline} {cc : CacheVolume} (h : cc ∈ p.caches) :
    hasKey (resourcesDict p) cc.name = true := by
  unfold resourcesDict
  apply foldl_guard_hasKey_mono
  exact foldl_dinsert_hasKey_intro (fun c : CacheVolume => c.name) _ _ _ _ h

theorem countKey_eq_count (d : List (String × JVal)) (k : String) :
    countKey d k = List.count k (keysOf d) := by
  unfold countKey keysOf
  rw [List.count, List.countP_map]
  apply List.countP_congr
  intro kv _
  simp [Function.comp, BEq.comm]

theorem countKey_eq_one {d : List (String × JVal)} {k : String}
    (hnd : (keysOf d).Nodup) (hk : hasKey d k = true) : countKey d k = 1 := by
  rw [countKey_eq_count]
  exact List.count_eq_one_of_mem hnd (mem_keysOf_iff_hasKey.mpr hk)

/-- C9: requesting the same directory path (or cache name) twice returns the
same resource and leaves the pipeline unchanged, and any pipeline that holds
a directory with that path (resp. a cache with that name) — for instance
after mounting it — serializes a resources map with exactly one entry under
that id. -/
theorem C9_resource_identity (p : Pipeline) (path cname : String)
    (p1 : Pipeline) (d1 : Directory) (hdir : Pipeline.dir p path = .ok (p1, d1))
    (p2 : Pipeline) (c1 : CacheVolume) (hcache : Pipeline.cache p cname = .ok (p2, c1)) :
    Pipeline.dir p1 path = .ok (p1, d1) ∧
    Pipeline.cache p2 cname = .ok (p2, c1) ∧
    (∀ q : Pipeline, d1 ∈ q.dirs → countKey (resourcesDict q) d1.id = 1) ∧
    (∀ q : Pipeline, c1 ∈ q.caches → countKey (resourcesDict q) c1.name = 1) := by
  refine ⟨?_, ?_, ?_, ?_⟩
  · unfold Pipeline.dir at hdir ⊢
    by_cases hcond : path = "" ∨ strStrip path = ""
    · rw [if_pos hcond] at hdir
      cases hdir
    · rw [if_neg hcond] at hdir ⊢
      rcases hf : p.dirs.find? (fun d => d.path == path) with _ | dd <;> rw [hf] at hdir
      · injection hdir with hp
        obtain ⟨h1, h2⟩ := Prod.mk.inj hp
        subst h1
        subst h2
        rw [List.find?_append, hf]
        simp
      · injection hdir with hp
        obtain ⟨h1, h2⟩ := Prod.mk.inj hp
        subst h1
        subst h2
        rw [hf]
  · unfold Pipeline.cache at hcache ⊢
    by_cases hcond : cname = "" ∨ strStrip cname = ""
    · rw [if_pos hcond] at hcache
      cases hcache
    · rw [if_neg hcond] at hcache ⊢
      rcases hf : p.caches.find? (fun c => c.name == cname) with _ | cc <;> rw [hf] at hcache
      · injection hcache with hp
        obtain ⟨h1, h2⟩ := Prod.mk.inj hp
        subst h1
        subst h2
        rw [List.find?_append, hf]
        simp
      · injection hcache with hp
        obtain ⟨h1, h2⟩ := Prod.mk.inj hp
        subst h1
        subst h2
        rw [hf]
  · intro q hq
    exact countKey_eq_one (resourcesDict_keys_nodup q) (resourcesDict_hasKey_dir hq)
  · intro q hq
    exact countKey_eq_one (resourcesDict_keys_nodup q) (resourcesDict_hasKey_cache hq)

def c9P0 : Pipeline := { tasks := [{ mkTask "t" false with command := "x" }], taskNames := ["t"] }

def c9P1 : Pipeline := ((Pipeline.dir c9P0 ".").toOption.getD (c9P0, ⟨".", []⟩)).1

def c9D : Directory := ((Pipeline.dir c9P0 ".").toOption.getD (c9P0, ⟨".", []⟩)).2

def c9P2 : Pipeline := ((Pipeline.cache c9P0 "pip").toOption.getD (c9P0, ⟨"pip"⟩)).1

def c9C : CacheVolume := ((Pipeline.cache c9P0 "pip").toOption.getD (c9P0, ⟨"pip"⟩)).2

/-- The pipeline after mounting the directory on task t. -/
def c9Q : Pipeline := (c9P1.mountOnTask "t" c9D "/src").toOption.getD c9P1

/-- C9, witness: double dir/cache calls return the same handles, and the
mounted pipeline serializes exactly one resources entry for the path. -/
theorem C9_witness :
    Pipeline.dir c9P0 "." = .ok (c9P1, c9D) ∧
    Pipeline.cache c9P0 "pip" = .ok (c9P2, c9C) ∧
    Pipeline.dir c9P1 "." = .ok (c9P1, c9D) ∧
    Pipeline.cache c9P2 "pip" = .ok (c9P2, c9C) ∧
    c9D ∈ c9Q.dirs ∧
    countKey (resourcesDict c9Q) c9D.id = 1 := by
  have h := C9_resource_identity c9P0 "." "pip" c9P1 c9D rfl c9P2 c9C rfl
  exact ⟨rfl, rfl, h.1, h.2.1, by decide, h.2.2.1 c9Q (by decide)⟩

/-! ## Claim C7: chain and parallel combinators -/

theorem afterL_name (t : Task) (names : List String) : (t.afterL names).name = t.name := by
  unfold Task.afterL
  induction names generalizing t with
  | nil => rfl
  | cons n ns ih =>
    rw [List.foldl_cons]
    split <;> exact ih _

theorem afterL_single (t : Task) (a : String) (hd : t.dependsOn = []) (ha : a ≠ "") :
    t.afterL [a] = { t with dependsOn := [a] } := by
  unfold Task.afterL
  rw [List.foldl_cons, List.foldl_nil, if_pos ⟨ha, by simp [hd]⟩, hd]
  rfl

theorem afterL_pair (t : Task) (a b : String) (hd : t.dependsOn = [])
    (ha : a ≠ "") (hb : b ≠ "") (hab : a ≠ b) :
    t.afterL [a, b] = { t with dependsOn := [a, b] } := by
  unfold Task.afterL
  rw [List.foldl_cons, if_pos ⟨ha, by simp [hd]⟩]
  rw [List.foldl_cons, List.foldl_nil]
  rw [if_pos ⟨hb, by simp [hd, Ne.symm hab]⟩]
  rw [hd]
  rfl

theorem find?_updateFirst_eq {ts : List Task} {n : String} {t : Task} {f : Task → Task}
    (h : ts.find? (fun x => x.name == n) = some t) (hf : (f t).name = t.name) :
    (updateFirst ts n f).find? (fun x => x.name == n) = some (f t) := by
  induction ts with
  | nil => cases h
  | cons a as ih =>
    rw [List.find?_cons] at h
    unfold updateFirst
    by_cases heq : a.name = n
    · rw [if_pos heq]
      have hb : (a.name == n) = true := by simp [heq]
      rw [hb] at h
      injection h with h
      subst h
      rw [List.find?_cons]
      have : ((f a).name == n) = true := by simp [hf, heq]
      rw [this]
    · rw [if_neg heq]
      have hb : (a.name == n) = false := by simp [heq]
      rw [hb] at h
      rw [List.find?_cons, hb]
      exact ih h

theorem find?_updateFirst_ne {ts : List Task} {n m : String} {f : Task → Task}
    (hm : m ≠ n) (hname : ∀ x, (f x).name = x.name) :
    (updateFirst ts n f).find? (fun x => x.name == m) =
      ts.find? (fun x => x.name == m) := by
  induction ts with
  | nil => rfl
  | cons a as ih =>
    unfold updateFirst
    by_cases heq : a.name = n
    · rw [if_pos heq]
      have hb : (a.name == m) = false := by simp [heq, Ne.symm hm]
      have hb2 : ((f a).name == m) = false := by simp [hname, heq, Ne.symm hm]
      rw [List.find?_cons, List.find?_cons, hb, hb2]
    · rw [if_neg heq]
      rw [List.find?_cons, List.find?_cons]
      cases hb : (a.name == m)
      · exact ih
      · rfl

/-- C7: chaining three single tasks wires B after A and C after B; chaining a
parallel group before C wires C after both A and B while leaving A and B
untouched (parallel itself adds no edges); the returned group resolves to
the last stage's names. -/
theorem C7_chain_parallel (p : Pipeline) (A B C : Task) (nm : String)
    (hA : p.findTask A.name = some A) (hB : p.findTask B.name = some B)
    (hC : p.findTask C.name = some C)
    (hAB : A.name ≠ B.name) (hAC : A.name ≠ C.name) (hBC : B.name ≠ C.name)
    (hAn : A.name ≠ "") (hBn : B.name ≠ "") (hCn : C.name ≠ "")
    (hdB : B.dependsOn = []) (hdC : C.dependsOn = []) :
    ((p.chain [.task A, .task B, .task C]).1.findTask A.name = some A ∧
     (p.chain [.task A, .task B, .task C]).1.findTask B.name =
       some { B with dependsOn := [A.name] } ∧
     (p.chain [.task A, .task B, .task C]).1.findTask C.name =
       some { C with dependsOn := [B.name] } ∧
     (p.chain [.task A, .task B, .task C]).2 = ⟨"chain", [C.name]⟩) ∧
    (Pipeline.parallel nm [A, B] = ⟨nm, [A.name, B.name]⟩) ∧
    ((p.chain [.group (Pipeline.parallel nm [A, B]), .task C]).1.findTask A.name = some A ∧
     (p.chain [.group (Pipeline.parallel nm [A, B]), .task C]).1.findTask B.name = some B ∧
     (p.chain [.group (Pipeline.parallel nm [A, B]), .task C]).1.findTask C.name =
       some { C with dependsOn := [A.name, B.name] } ∧
     (p.chain [.group (Pipeline.parallel nm [A, B]), .task C]).2 = ⟨"chain", [C.name]⟩) := by
  have hchain1 : p.chain [.task A, .task B, .task C] =
      ({ p with tasks := (updateFirst
          (updateFirst p.tasks B.name (fun tk => tk.afterL [A.name]))
          C.name (fun tk => tk.afterL [B.name])) }, ⟨"chain", [C.name]⟩) := by
    rfl
  have hchain2 : p.chain [.group (Pipeline.parallel nm [A, B]), .task C] =
      ({ p with tasks := (updateFirst p.tasks C.name
          (fun tk => tk.afterL [A.name, B.name])) }, ⟨"chain", [C.name]⟩) := by
    rfl
  refine ⟨⟨?_, ?_, ?_, by rw [hchain1]⟩, rfl, ⟨?_, ?_, ?_, by rw [hchain2]⟩⟩
  · rw [hchain1]
    show List.find? _ _ = _
    rw [find?_updateFirst_ne hAC (fun x => afterL_name x [B.name]),
      find?_updateFirst_ne hAB (fun x => afterL_name x [A.name])]
    exact hA
  · rw [hchain1]
    show List.find? _ _ = _
    rw [find?_updateFirst_ne hBC (fun x => afterL_name x [B.name])]
    rw [find?_updateFirst_eq hB (by rw [afterL_name])]
    rw [afterL_single B A.name hdB hAn]
  · rw [hchain1]
    show List.find? _ _ = _
    have hC1 : (updateFirst p.tasks B.name (fun tk => tk.afterL [A.name])).find?
        (fun x => x.name == C.name) = some C := by
      rw [find?_updateFirst_ne (Ne.symm hBC) (fun x => afterL_name x [A.name])]
      exact hC
    rw [find?_updateFirst_eq hC1 (by rw [afterL_name])]
    rw [afterL_single C B.name hdC hBn]
  · rw [hchain2]
    show List.find? _ _ = _
    rw [find?_updateFirst_ne hAC (fun x => afterL_name x [A.name, B.name])]
    exact hA
  · rw [hchain2]
    show List.find? _ _ = _
    rw [find?_updateFirst_ne hBC (fun x => afterL_name x [A.name, B.name])]
    exact hB
  · rw [hchain2]
    show List.find? _ _ = _
    rw [find?_updateFirst_eq hC (by rw [afterL_name])]
    rw [afterL_pair C A.name B.name hdC hAn hBn hAB]

def c7A : Task := { mkTask "a" false with command := "x" }

def c7B : Task := { mkTask "b" false with command := "x" }

def c7C : Task := { mkTask "c" false with command := "x" }

def c7P : Pipeline := { tasks := [c7A, c7B, c7C], taskNames := ["a", "b", "c"] }

/-- C7, witness: the theorem applied to a concrete three-task pipeline. -/
theorem C7_witness :
    ((c7P.chain [.task c7A, .task c7B, .task c7C]).1.findTask c7A.name = some c7A ∧
     (c7P.chain [.task c7A, .task c7B, .task c7C]).1.findTask c7B.name =
       some { c7B with dependsOn := [c7A.name] } ∧
     (c7P.chain [.task c7A, .task c7B, .task c7C]).1.findTask c7C.name =
       some { c7C with dependsOn := [c7B.name] } ∧
     (c7P.chain [.task c7A, .task c7B, .task c7C]).2 = ⟨"chain", [c7C.name]⟩) ∧
    (Pipeline.parallel "par" [c7A, c7B] = ⟨"par", [c7A.name, c7B.name]⟩) ∧
    ((c7P.chain [.group (Pipeline.parallel "par" [c7A, c7B]), .task c7C]).1.findTask
        c7A.name = some c7A ∧
     (c7P.chain [.group (Pipeline.parallel "par" [c7A, c7B]), .task c7C]).1.findTask
        c7B.name = some c7B ∧
     (c7P.chain [.group (Pipeline.parallel "par" [c7A, c7B]), .task c7C]).1.findTask
        c7C.name = some { c7C with dependsOn := [c7A.name, c7B.name] } ∧
     (c7P.chain [.group (Pipeline.parallel "par" [c7A, c7B]), .task c7C]).2 =
       ⟨"chain", [c7C.name]⟩) :=
  C7_chain_parallel c7P c7A c7B c7C "par" rfl rfl rfl (by decide) (by decide) (by decide)
    (by decide) (by decide) (by decide) rfl rfl

/-! ## The two-pointer per-character matching -/

/-- Two-pointer matching of two ascending position lists within window d:
if the heads are within distance d they are matched; otherwise the smaller
head can never match and is discarded.  Returns the matched pairs and the
unconsumed suffix of the second list. -/
def zipMRun (d : Nat) : List Nat → List Nat → List (Nat × Nat) × List Nat
  | [], bs => ([], bs)
  | _ :: _, [] => ([], [])
  | a :: as, b :: bs =>
    if b + d < a then zipMRun d (a :: as) bs
    else if a + d < b then zipMRun d as (b :: bs)
    else
      let r := zipMRun d as bs
      ((a, b) :: r.1, r.2)
termination_by as bs => as.length + bs.length

theorem zipMRun_swap (d : Nat) : ∀ as bs,
    (zipMRun d as bs).1.map Prod.swap = (zipMRun d bs as).1 := by
  intro as bs
  induction as, bs using zipMRun.induct d with
  | case1 bs => cases bs <;> simp [zipMRun]
  | case2 a as => simp [zipMRun]
  | case3 a as b bs h ih =>
    have h2 : ¬a + d < b := by omega
    rw [show zipMRun d (a :: as) (b :: bs) = zipMRun d (a :: as) bs from by
      rw [zipMRun, if_pos h]]
    rw [show zipMRun d (b :: bs) (a :: as) = zipMRun d bs (a :: as) from by
      rw [zipMRun, if_neg h2, if_pos h]]
    exact ih
  | case4 a as b bs h1 h2 ih =>
    rw [show zipMRun d (a :: as) (b :: bs) = zipMRun d as (b :: bs) from by
      rw [zipMRun, if_neg h1, if_pos h2]]
    rw [show zipMRun d (b :: bs) (a :: as) = zipMRun d (b :: bs) as from by
      rw [zipMRun, if_pos h2]]
    exact ih
  | case5 a as b bs h1 h2 ih =>
    have h2' : ¬a + d < b := h2
    rw [show zipMRun d (a :: as) (b :: bs) =
        ((a, b) :: (zipMRun d as bs).1, (zipMRun d as bs).2) from by
      rw [zipMRun, if_neg h1, if_neg h2]]
    rw [show zipMRun d (b :: bs) (a :: as) =
        ((b, a) :: (zipMRun d bs as).1, (zipMRun d bs as).2) from by
      rw [zipMRun, if_neg (show ¬a + d < b from h2), if_neg (show ¬b + d < a from h1)]]
    simp [ih]

/-- The unconsumed suffix really is a suffix of the second list. -/
theorem zipMRun_rest_suffix (d : Nat) : ∀ as bs, (zipMRun d as bs).2 <:+ bs := by
  intro as bs
  induction as, bs using zipMRun.induct d with
  | case1 bs => simp [zipMRun]
  | case2 a as => simp [zipMRun]
  | case3 a as b bs h ih =>
    rw [show zipMRun d (a :: as) (b :: bs) = zipMRun d (a :: as) bs from by
      rw [zipMRun, if_pos h]]
    exact ih.trans (List.suffix_cons b bs)
  | case4 a as b bs h1 h2 ih =>
    rw [show zipMRun d (a :: as) (b :: bs) = zipMRun d as (b :: bs) from by
      rw [zipMRun, if_neg h1, if_pos h2]]
    exact ih
  | case5 a as b bs h1 h2 ih =>
    rw [show zipMRun d (a :: as) (b :: bs) =
        ((a, b) :: (zipMRun d as bs).1, (zipMRun d as bs).2) from by
      rw [zipMRun, if_neg h1, if_neg h2]]
    exact ih.trans (List.suffix_cons b bs)

/-- Every matched pair takes its components from the two lists. -/
theorem zipMRun_pairs_mem (d : Nat) : ∀ as bs, ∀ p ∈ (zipMRun d as bs).1,
    p.1 ∈ as ∧ p.2 ∈ bs := by
  intro as bs
  induction as, bs using zipMRun.induct d with
  | case1 bs => simp [zipMRun]
  | case2 a as => simp [zipMRun]
  | case3 a as b bs h ih =>
    rw [show zipMRun d (a :: as) (b :: bs) = zipMRun d (a :: as) bs from by
      rw [zipMRun, if_pos h]]
    intro p hp
    exact ⟨(ih p hp).1, List.mem_cons_of_mem b (ih p hp).2⟩
  | case4 a as b bs h1 h2 ih =>
    rw [show zipMRun d (a :: as) (b :: bs) = zipMRun d as (b :: bs) from by
      rw [zipMRun, if_neg h1, if_pos h2]]
    intro p hp
    exact ⟨List.mem_cons_of_mem a (ih p hp).1, (ih p hp).2⟩
  | case5 a as b bs h1 h2 ih =>
    rw [show zipMRun d (a :: as) (b :: bs) =
        ((a, b) :: (zipMRun d as bs).1, (zipMRun d as bs).2) from by
      rw [zipMRun, if_neg h1, if_neg h2]]
    intro p hp
    rcases List.mem_cons.mp hp with hp | hp
    · subst hp; exact ⟨List.mem_cons_self a as, List.mem_cons_self b bs⟩
    · exact ⟨List.mem_cons_of_mem a (ih p hp).1, List.mem_cons_of_mem b (ih p hp).2⟩

/-- On a duplicate-free second list, the leftover suffix is disjoint from the
matched second components. -/
theorem zipMRun_rest_disjoint (d : Nat) : ∀ as bs, bs.Nodup →
    ∀ b ∈ (zipMRun d as bs).2, b ∉ (zipMRun d as bs).1.map (·.2) := by
  intro as bs
  induction as, bs using zipMRun.induct d with
  | case1 bs => simp [zipMRun]
  | case2 a as => simp [zipMRun]
  | case3 a as b bs h ih =>
    intro hnd x hx
    rw [show zipMRun d (a :: as) (b :: bs) = zipMRun d (a :: as) bs from by
      rw [zipMRun, if_pos h]] at hx ⊢
    exact ih (List.Nodup.of_cons hnd) x hx
  | case4 a as b bs h1 h2 ih =>
    intro hnd x hx
    rw [show zipMRun d (a :: as) (b :: bs) = zipMRun d as (b :: bs) from by
      rw [zipMRun, if_neg h1, if_pos h2]] at hx ⊢
    exact ih hnd x hx
  | case5 a as b bs h1 h2 ih =>
    intro hnd x hx
    rw [show zipMRun d (a :: as) (b :: bs) =
        ((a, b) :: (zipMRun d as bs).1, (zipMRun d as bs).2) from by
      rw [zipMRun, if_neg h1, if_neg h2]] at hx ⊢
    have hxbs : x ∈ bs := (zipMRun_rest_suffix d as bs).subset hx
    simp only [List.map_cons, List.mem_cons]
    rintro (hxb | hxm)
    · rw [hxb] at hxbs
      exact (List.nodup_cons.mp hnd).1 hxbs
    · exact ih (List.Nodup.of_cons hnd) x hx hxm

/-- Any second-list element that is neither matched nor left over was
discarded by some first-list element above it. -/
theorem zipMRun_dropped (d n : Nat) : ∀ as bs, (∀ a ∈ as, a < n) →
    ∀ b ∈ bs, b ∉ (zipMRun d as bs).1.map (·.2) → b ∉ (zipMRun d as bs).2 →
      b + d < n := by
  intro as bs
  induction as, bs using zipMRun.induct d with
  | case1 bs =>
    intro _ b hb _ hr
    rw [show zipMRun d [] bs = ([], bs) from by rw [zipMRun]] at hr
    exact absurd hb hr
  | case2 a as => simp [zipMRun]
  | case3 a as b bs h ih =>
    intro hlt x hx hm hr
    rw [show zipMRun d (a :: as) (b :: bs) = zipMRun d (a :: as) bs from by
      rw [zipMRun, if_pos h]] at hm hr
    rcases List.mem_cons.mp hx with hx | hx
    · subst hx
      have : a < n := hlt a (List.mem_cons_self a as)
      omega
    · exact ih hlt x hx hm hr
  | case4 a as b bs h1 h2 ih =>
    intro hlt x hx hm hr
    rw [show zipMRun d (a :: as) (b :: bs) = zipMRun d as (b :: bs) from by
      rw [zipMRun, if_neg h1, if_pos h2]] at hm hr
    exact ih (fun y hy => hlt y (List.mem_cons_of_mem a hy)) x hx hm hr
  | case5 a as b bs h1 h2 ih =>
    intro hlt x hx hm hr
    rw [show zipMRun d (a :: as) (b :: bs) =
        ((a, b) :: (zipMRun d as bs).1, (zipMRun d as bs).2) from by
      rw [zipMRun, if_neg h1, if_neg h2]] at hm hr
    simp only [List.map_cons, List.mem_cons, not_or] at hm
    rcases List.mem_cons.mp hx with hx | hx
    · exact absurd hx hm.1
    · exact ih (fun y hy => hlt y (List.mem_cons_of_mem a hy)) x hx hm.2 hr

/-- Appending to the first list continues the run on the leftover suffix. -/
theorem zipMRun_append (d : Nat) : ∀ as as2 bs,
    zipMRun d (as ++ as2) bs =
      ((zipMRun d as bs).1 ++ (zipMRun d as2 ((zipMRun d as bs).2)).1,
        (zipMRun d as2 ((zipMRun d as bs).2)).2) := by
  intro as as2 bs
  induction as, bs using zipMRun.induct d with
  | case1 bs => simp [zipMRun]
  | case2 a as =>
    rw [show zipMRun d (a :: as) [] = ([], []) from by rw [zipMRun]]
    rw [show (a :: as) ++ as2 = a :: (as ++ as2) from rfl]
    rw [show zipMRun d (a :: (as ++ as2)) [] = ([], []) from by rw [zipMRun]]
    cases as2 <;> simp [zipMRun]
  | case3 a as b bs h ih =>
    rw [show zipMRun d (a :: as) (b :: bs) = zipMRun d (a :: as) bs from by
      rw [zipMRun, if_pos h]]
    rw [show (a :: as) ++ as2 = a :: (as ++ as2) from rfl]
    rw [show zipMRun d (a :: (as ++ as2)) (b :: bs) = zipMRun d (a :: (as ++ as2)) bs from by
      rw [zipMRun, if_pos h]]
    rw [show a :: (as ++ as2) = (a :: as) ++ as2 from rfl]
    exact ih
  | case4 a as b bs h1 h2 ih =>
    rw [show zipMRun d (a :: as) (b :: bs) = zipMRun d as (b :: bs) from by
      rw [zipMRun, if_neg h1, if_pos h2]]
    rw [show (a :: as) ++ as2 = a :: (as ++ as2) from rfl]
    rw [show zipMRun d (a :: (as ++ as2)) (b :: bs) = zipMRun d (as ++ as2) (b :: bs) from by
      rw [zipMRun, if_neg h1, if_pos h2]]
    exact ih
  | case5 a as b bs h1 h2 ih =>
    rw [show zipMRun d (a :: as) (b :: bs) =
        ((a, b) :: (zipMRun d as bs).1, (zipMRun d as bs).2) from by
      rw [zipMRun, if_neg h1, if_neg h2]]
    rw [show (a :: as) ++ as2 = a :: (as ++ as2) from rfl]
    rw [show zipMRun d (a :: (as ++ as2)) (b :: bs) =
        ((a, b) :: (zipMRun d (as ++ as2) bs).1, (zipMRun d (as ++ as2) bs).2) from by
      rw [zipMRun, if_neg h1, if_neg h2]]
    rw [ih]
    simp



/-! ## Window search characterizations -/

/-- The first element of an ascending list that lies in the window
[n - d, n + d]; elements below the window are discarded. -/
def firstInWin (d n : Nat) : List Nat → Option Nat
  | [] => none
  | b :: bs => if b + d < n then firstInWin d n bs else if n + d < b then none else some b

theorem find?_range'_eq_some_iff (p : Nat → Bool) :
    ∀ (l s j : Nat), ((List.range' s l).find? p = some j ↔
      p j = true ∧ s ≤ j ∧ j < s + l ∧ ∀ i, s ≤ i → i < j → p i = false) := by
  intro l
  induction l with
  | zero => intro s j; simp; omega
  | succ l ih =>
    intro s j
    rw [List.range'_succ, List.find?_cons]
    cases hp : p s with
    | true =>
      simp only []
      constructor
      · rintro h
        injection h with h
        subst h
        exact ⟨hp, le_refl s, by omega, fun i h1 h2 => absurd h1 (by omega)⟩
      · rintro ⟨hj, hsj, hlt, hmin⟩
        rcases Nat.eq_or_lt_of_le hsj with h | h
        · rw [h]
        · exact absurd hp (by rw [hmin s (le_refl s) h]; simp)
    | false =>
      simp only []
      rw [ih (s + 1) j]
      constructor
      · rintro ⟨hj, hsj, hlt, hmin⟩
        refine ⟨hj, by omega, by omega, fun i h1 h2 => ?_⟩
        rcases Nat.eq_or_lt_of_le h1 with h | h
        · rw [← h]; exact hp
        · exact hmin i h h2
      · rintro ⟨hj, hsj, hlt, hmin⟩
        have hne : s ≠ j := by
          intro h
          rw [← h] at hj
          rw [hp] at hj
          exact Bool.false_ne_true hj
        exact ⟨hj, by omega, by omega, fun i h1 h2 => hmin i (by omega) h2⟩

theorem find?_range'_eq_none_iff (p : Nat → Bool) (l s : Nat) :
    ((List.range' s l).find? p = none ↔ ∀ i, s ≤ i → i < s + l → p i = false) := by
  rw [List.find?_eq_none]
  constructor
  · intro h i h1 h2
    have := h i (List.mem_range'_1.mpr ⟨h1, h2⟩)
    cases hp : p i
    · rfl
    · exact absurd hp this
  · intro h i hi
    have hm := List.mem_range'_1.mp hi
    rw [h i hm.1 hm.2]
    simp

theorem firstInWin_some_iff (d n : Nat) :
    ∀ (R : List Nat), R.Pairwise (· < ·) → ∀ b,
      (firstInWin d n R = some b ↔
        b ∈ R ∧ n ≤ b + d ∧ b ≤ n + d ∧ ∀ b' ∈ R, b' < b → b' + d < n) := by
  intro R
  induction R with
  | nil => intro _ b; simp [firstInWin]
  | cons x xs ih =>
    intro hs b
    have hxs : xs.Pairwise (· < ·) := (List.pairwise_cons.mp hs).2
    rw [firstInWin]
    by_cases h1 : x + d < n
    · rw [if_pos h1, ih hxs b]
      constructor
      · rintro ⟨hb, h2, h3, h4⟩
        refine ⟨List.mem_cons_of_mem x hb, h2, h3, fun y hy hlt => ?_⟩
        rcases List.mem_cons.mp hy with hy | hy
        · rw [hy]; exact h1
        · exact h4 y hy hlt
      · rintro ⟨hb, h2, h3, h4⟩
        rcases List.mem_cons.mp hb with hb | hb
        · rw [hb] at h2; omega
        · exact ⟨hb, h2, h3, fun y hy hlt => h4 y (List.mem_cons_of_mem x hy) hlt⟩
    · rw [if_neg h1]
      by_cases h2 : n + d < x
      · rw [if_pos h2]
        constructor
        · intro h; exact absurd h (by simp)
        · rintro ⟨hb, h3, h4, h5⟩
          rcases List.mem_cons.mp hb with hb | hb
          · omega
          · have := (List.pairwise_cons.mp hs).1 b hb
            omega
      · rw [if_neg h2]
        constructor
        · intro h
          injection h with h
          subst h
          exact ⟨List.mem_cons_self x xs, by omega, by omega,
            fun y hy hlt => by
              rcases List.mem_cons.mp hy with hy | hy
              · omega
              · have := (List.pairwise_cons.mp hs).1 y hy
                omega⟩
        · rintro ⟨hb, h3, h4, h5⟩
          rcases List.mem_cons.mp hb with hb | hb
          · rw [hb]
          · have hxb : x < b := (List.pairwise_cons.mp hs).1 b hb
            have := h5 x (List.mem_cons_self x xs) hxb
            omega

theorem firstInWin_none_iff (d n : Nat) :
    ∀ (R : List Nat), R.Pairwise (· < ·) →
      (firstInWin d n R = none ↔ ∀ b ∈ R, b + d < n ∨ n + d < b) := by
  intro R
  induction R with
  | nil => intro _; simp [firstInWin]
  | cons x xs ih =>
    intro hs
    have hxs : xs.Pairwise (· < ·) := (List.pairwise_cons.mp hs).2
    rw [firstInWin]
    by_cases h1 : x + d < n
    · rw [if_pos h1, ih hxs]
      constructor
      · intro h y hy
        rcases List.mem_cons.mp hy with hy | hy
        · left; rw [hy]; exact h1
        · exact h y hy
      · intro h y hy
        exact h y (List.mem_cons_of_mem x hy)
    · rw [if_neg h1]
      by_cases h2 : n + d < x
      · rw [if_pos h2]
        constructor
        · intro _ y hy
          rcases List.mem_cons.mp hy with hy | hy
          · right; rw [hy]; exact h2
          · right
            have := (List.pairwise_cons.mp hs).1 y hy
            omega
        · intro _; rfl
      · rw [if_neg h2]
        constructor
        · intro h; exact absurd h (by simp)
        · intro h
          have := h x (List.mem_cons_self x xs)
          omega

theorem zipMRun_single (d n : Nat) : ∀ (R : List Nat),
    (zipMRun d [n] R).1 =
      match firstInWin d n R with
      | some b => [(n, b)]
      | none => [] := by
  intro R
  induction R with
  | nil =>
    rw [show zipMRun d [n] [] = ([], []) from by rw [zipMRun]]
    rfl
  | cons b bs ih =>
    rw [firstInWin]
    by_cases h1 : b + d < n
    · rw [show zipMRun d [n] (b :: bs) = zipMRun d [n] bs from by
        rw [zipMRun, if_pos h1]]
      rw [if_pos h1]
      exact ih
    · rw [if_neg h1]
      by_cases h2 : n + d < b
      · rw [show zipMRun d [n] (b :: bs) = ([], b :: bs) from by
          rw [zipMRun, if_neg h1, if_pos h2, zipMRun]]
        rw [if_pos h2]
      · rw [show zipMRun d [n] (b :: bs) = ([(n, b)], bs) from by
          rw [zipMRun, if_neg h1, if_neg h2, zipMRun]]
        rw [if_neg h2]

/-! ## Position lists -/

/-- The positions of character c among the first n characters of s,
in ascending order. -/
def posUp (c : Char) (s : List Char) (n : Nat) : List Nat :=
  (List.range n).filter (fun j => s.get? j == some c)

theorem mem_posUp {c : Char} {s : List Char} {n j : Nat} :
    j ∈ posUp c s n ↔ j < n ∧ s.get? j = some c := by
  unfold posUp
  rw [List.mem_filter, List.mem_range]
  simp

theorem posUp_succ (c : Char) (s : List Char) (n : Nat) :
    posUp c s (n + 1) =
      posUp c s n ++ (if s.get? n = some c then [n] else []) := by
  unfold posUp
  rw [List.range_succ, List.filter_append]
  congr 1
  rw [List.filter_cons]
  by_cases h : s.get? n = some c
  · rw [if_pos h, if_pos (beq_iff_eq.mpr h), List.filter_nil]
  · rw [if_neg h, if_neg (fun hb => h (beq_iff_eq.mp hb)), List.filter_nil]

theorem posUp_sorted (c : Char) (s : List Char) (n : Nat) :
    (posUp c s n).Pairwise (· < ·) :=
  List.Pairwise.filter _ (List.pairwise_lt_range n)

theorem posUp_nodup (c : Char) (s : List Char) (n : Nat) :
    (posUp c s n).Nodup :=
  List.Nodup.filter _ (List.nodup_range n)

theorem posUp_lt {c : Char} {s : List Char} {n : Nat} :
    ∀ j ∈ posUp c s n, j < n := fun _ hj => (mem_posUp.mp hj).1



/-! ## Count invariants of the match loop -/

theorem getD_true_lt {l : List Bool} {j : Nat} (h : l.getD j true = false) :
    j < l.length := by
  by_contra hc
  rw [List.getD_eq_default _ _ (by omega)] at h
  cases h

theorem getD_false_of_getD_true {l : List Bool} {j : Nat} (h : l.getD j true = false) :
    l.getD j false = false := by
  have hj := getD_true_lt h
  rw [List.getD_eq_getElem _ _ hj] at h ⊢
  exact h

theorem count_true_set : ∀ (l : List Bool) (j : Nat), j < l.length →
    l.getD j false = false →
      (l.set j true).count true = l.count true + 1 := by
  intro l
  induction l with
  | nil => intro j hj; simp at hj
  | cons x xs ih =>
    intro j hj hf
    cases j with
    | zero =>
      rw [List.getD_cons_zero] at hf
      subst hf
      rw [List.set_cons_zero]
      simp [List.count_cons]
    | succ j =>
      rw [List.getD_cons_succ] at hf
      rw [List.set_cons_succ]
      rw [List.count_cons, List.count_cons, ih j (by simpa using hj) hf]
      omega

/-- The predicate facts delivered by a successful window search. -/
theorem findInWindow_some {s2 : List Char} {s2m : List Bool} {c : Char}
    {start stop j : Nat} (h : findInWindow s2 s2m c start stop = some j) :
    s2m.getD j true = false ∧ s2.get? j = some c ∧ start ≤ j ∧ j < stop := by
  unfold findInWindow at h
  have hp := List.find?_some h
  have hm := List.mem_of_find?_eq_some h
  rw [List.mem_range'_1] at hm
  rw [Bool.and_eq_true, Bool.not_eq_true'] at hp
  refine ⟨hp.1, beq_iff_eq.mp hp.2, hm.1, by omega⟩

/-- Lengths and counts through the match loop: the s2 flag list keeps its
length, the match count equals the number of set flags on either side, and
the s1 flag list grows one flag per processed character. -/
theorem foldl_matchStep_counts (s2 : List Char) (md : Nat) :
    ∀ (l : List (Nat × Char)) (st : List Bool × List Bool × Nat),
      st.2.1.length = s2.length → st.2.2 = st.2.1.count true →
      st.1.count true = st.2.2 →
      ((l.foldl (matchStep s2 md) st).2.1.length = s2.length ∧
        (l.foldl (matchStep s2 md) st).2.2 = (l.foldl (matchStep s2 md) st).2.1.count true ∧
        (l.foldl (matchStep s2 md) st).1.count true = (l.foldl (matchStep s2 md) st).2.2 ∧
        (l.foldl (matchStep s2 md) st).1.length = st.1.length + l.length) := by
  intro l
  induction l with
  | nil => intro st h1 h2 h3; exact ⟨h1, h2, h3, by simp⟩
  | cons ic l ih =>
    intro st h1 h2 h3
    rw [List.foldl_cons]
    rcases hfw : findInWindow s2 st.2.1 ic.2 (ic.1 - md) (min (ic.1 + md + 1) s2.length) with _ | j
    · have hstep : matchStep s2 md st ic = (st.1 ++ [false], st.2.1, st.2.2) := by
        unfold matchStep
        dsimp only
        rw [hfw]
      rw [hstep]
      have := ih (st.1 ++ [false], st.2.1, st.2.2) h1 h2 (by simpa using h3)
      refine ⟨this.1, this.2.1, this.2.2.1, ?_⟩
      rw [this.2.2.2]
      simp
      omega
    · have hj := findInWindow_some hfw
      have hjlt : j < st.2.1.length := getD_true_lt hj.1
      have hstep : matchStep s2 md st ic = (st.1 ++ [true], st.2.1.set j true, st.2.2 + 1) := by
        unfold matchStep
        dsimp only
        rw [hfw]
      rw [hstep]
      have hcnt : (st.2.1.set j true).count true = st.2.1.count true + 1 :=
        count_true_set st.2.1 j hjlt (getD_false_of_getD_true hj.1)
      have := ih (st.1 ++ [true], st.2.1.set j true, st.2.2 + 1)
        (by simpa using h1) (by rw [hcnt, ← h2]) (by simp [h3])
      refine ⟨this.1, this.2.1, this.2.2.1, ?_⟩
      rw [this.2.2.2]
      simp
      omega

theorem jaroMatch_counts (s1 s2 : List Char) (md : Nat) :
    (jaroMatch s1 s2 md).2.1.length = s2.length ∧
    (jaroMatch s1 s2 md).2.2 = (jaroMatch s1 s2 md).2.1.count true ∧
    (jaroMatch s1 s2 md).1.count true = (jaroMatch s1 s2 md).2.2 ∧
    (jaroMatch s1 s2 md).1.length = s1.length := by
  have h := foldl_matchStep_counts s2 md s1.enum ([], List.replicate s2.length false, 0)
    (by simp) (by rw [List.count_replicate]; simp) (by simp)
  unfold jaroMatch
  exact ⟨h.1, h.2.1, h.2.2.1, by rw [h.2.2.2]; simp⟩



/-! ## Characterizing the transposition loop -/

/-- Indices of set flags at or after k, ascending. -/
def trueIdxs (ms : List Bool) (k : Nat) : List Nat :=
  (List.range' k (ms.length - k)).filter (fun j => ms.getD j false)

/-- The characters sitting at the set flags at or after k. -/
def maskChars (s : List Char) (ms : List Bool) (k : Nat) : List Char :=
  (trueIdxs ms k).map (fun j => s.getD j 'a')

/-- Positionwise mismatches between two character sequences. -/
def mmCount (xs ys : List Char) : Nat :=
  (xs.zip ys).countP (fun p => !(p.1 == p.2))

theorem trueIdxs_ge {ms : List Bool} {k : Nat} (h : ms.length ≤ k) :
    trueIdxs ms k = [] := by
  unfold trueIdxs
  rw [Nat.sub_eq_zero_of_le h]
  rfl

theorem trueIdxs_step {ms : List Bool} {k : Nat} (h : k < ms.length) :
    trueIdxs ms k =
      (if ms.getD k false then [k] else []) ++ trueIdxs ms (k + 1) := by
  unfold trueIdxs
  rw [show ms.length - k = (ms.length - (k + 1)) + 1 from by omega, List.range'_succ,
    List.filter_cons]
  cases hk : ms.getD k false
  · rw [if_neg Bool.false_ne_true, if_neg Bool.false_ne_true]
    rfl
  · rw [if_pos rfl, if_pos rfl]
    rfl

theorem nextTrue_ge {ms : List Bool} {k : Nat} (h : ms.length ≤ k) :
    nextTrue ms k = ms.length := by
  unfold nextTrue
  rw [Nat.sub_eq_zero_of_le h]
  rfl

theorem nextTrue_true {ms : List Bool} {k : Nat} (hk : k < ms.length)
    (h : ms.getD k false = true) : nextTrue ms k = k := by
  unfold nextTrue
  rw [show ms.length - k = (ms.length - (k + 1)) + 1 from by omega, List.range'_succ,
    List.find?_cons]
  rw [h]

theorem nextTrue_false {ms : List Bool} {k : Nat} (hk : k < ms.length)
    (h : ms.getD k false = false) : nextTrue ms k = nextTrue ms (k + 1) := by
  unfold nextTrue
  rw [show ms.length - k = (ms.length - (k + 1)) + 1 from by omega, List.range'_succ,
    List.find?_cons]
  rw [h]

/-- Reading the head of the remaining-flag index list. -/
theorem trueIdxs_cons_spec {ms : List Bool} :
    ∀ (fuel k j : Nat) (rest : List Nat), ms.length - k ≤ fuel →
      trueIdxs ms k = j :: rest →
      nextTrue ms k = j ∧ trueIdxs ms (j + 1) = rest ∧
        ms.getD j false = true ∧ k ≤ j ∧ j < ms.length := by
  intro fuel
  induction fuel with
  | zero =>
    intro k j rest hf h
    rw [trueIdxs_ge (by omega)] at h
    exact absurd h (by simp)
  | succ fuel ih =>
    intro k j rest hf h
    by_cases hk : k < ms.length
    · rw [trueIdxs_step hk] at h
      cases hg : ms.getD k false
      · rw [hg] at h
        rw [if_neg Bool.false_ne_true] at h
        rw [List.nil_append] at h
        have := ih (k + 1) j rest (by omega) h
        exact ⟨by rw [nextTrue_false hk hg]; exact this.1, this.2.1, this.2.2.1, by omega,
          this.2.2.2.2⟩
      · rw [hg] at h
        rw [if_pos rfl] at h
        rw [List.singleton_append] at h
        injection h with h1 h2
        subst h1
        exact ⟨nextTrue_true hk hg, by rw [← h2], hg, le_refl k, hk⟩
    · rw [trueIdxs_ge (by omega)] at h
      exact absurd h (by simp)

/-- The set-flag index list counts the set flags of the dropped suffix. -/
theorem trueIdxs_length :
    ∀ (ms : List Bool) (fuel k : Nat), ms.length - k ≤ fuel →
      (trueIdxs ms k).length = (ms.drop k).count true := by
  intro ms fuel
  induction fuel with
  | zero =>
    intro k hf
    rw [trueIdxs_ge (by omega), List.drop_eq_nil_of_le (by omega)]
    rfl
  | succ fuel ih =>
    intro k hf
    by_cases hk : k < ms.length
    · rw [trueIdxs_step hk, List.drop_eq_getElem_cons hk, List.count_cons,
        List.length_append, ih (k + 1) (by omega)]
      rw [show ms.getD k false = ms[k] from List.getD_eq_getElem ms false hk]
      cases hg : ms[k] <;> simp <;> omega
    · rw [trueIdxs_ge (by omega), List.drop_eq_nil_of_le (by omega)]
      rfl

/-- Character projection of the enumerate-filter form equals maskChars. -/
theorem enumFrom_filter_chars (sfull : List Char) (ms : List Bool)
    (hlen : ms.length = sfull.length) :
    ∀ (s : List Char) (n : Nat), s = sfull.drop n →
      ((List.enumFrom n s).filter (fun ic => ms.getD ic.1 false)).map (·.2) =
        maskChars sfull ms n := by
  intro s
  induction s with
  | nil =>
    intro n hs
    have hn : sfull.length ≤ n := by
      by_contra hc
      rw [List.drop_eq_getElem_cons (by omega)] at hs
      exact absurd hs.symm (List.cons_ne_nil _ _)
    unfold maskChars
    rw [trueIdxs_ge (by omega)]
    rfl
  | cons x xs ih =>
    intro n hs
    have hn : n < sfull.length := by
      by_contra hc
      rw [List.drop_eq_nil_of_le (by omega)] at hs
      exact absurd hs (List.cons_ne_nil _ _)
    rw [List.drop_eq_getElem_cons hn] at hs
    injection hs with hx hxs
    rw [List.enumFrom_cons, List.filter_cons]
    unfold maskChars
    rw [trueIdxs_step (by omega)]
    cases hg : ms.getD n false
    · rw [if_neg Bool.false_ne_true]
      rw [show (if (false = true) then [n] else []) = [] from rfl]
      rw [List.nil_append]
      exact ih (n + 1) hxs
    · rw [if_pos rfl, List.map_cons, if_pos rfl, List.singleton_append, List.map_cons]
      rw [show sfull.getD n 'a' = sfull[n] from List.getD_eq_getElem sfull 'a' hn]
      rw [← hx]
      rw [show ((List.enumFrom (n + 1) xs).filter (fun ic => ms.getD ic.1 false)).map (·.2) =
        maskChars sfull ms (n + 1) from ih (n + 1) hxs]
      rfl

/-- Flag-count of the enumerate-filter form. -/
theorem enumFrom_countP (sfull : List Char) (ms : List Bool)
    (hlen : ms.length = sfull.length) :
    ∀ (s : List Char) (n : Nat), s = sfull.drop n →
      (List.enumFrom n s).countP (fun ic => ms.getD ic.1 false) =
        (ms.drop n).count true := by
  intro s
  induction s with
  | nil =>
    intro n hs
    have hn : sfull.length ≤ n := by
      by_contra hc
      rw [List.drop_eq_getElem_cons (by omega)] at hs
      exact absurd hs.symm (List.cons_ne_nil _ _)
    rw [List.drop_eq_nil_of_le (by omega)]
    rfl
  | cons x xs ih =>
    intro n hs
    have hn : n < sfull.length := by
      by_contra hc
      rw [List.drop_eq_nil_of_le (by omega)] at hs
      exact absurd hs (List.cons_ne_nil _ _)
    rw [List.drop_eq_getElem_cons hn] at hs
    injection hs with hx hxs
    rw [List.enumFrom_cons, List.countP_cons, ih (n + 1) hxs,
      List.drop_eq_getElem_cons (show n < ms.length from by omega), List.count_cons]
    rw [show ms.getD n false = ms[n] from List.getD_eq_getElem ms false (by omega)]
    cases hg : ms[n] <;> simp



/-- One mismatch step. -/
theorem mmCount_cons (x y : Char) (xs ys : List Char) :
    mmCount (x :: xs) (y :: ys) = mmCount xs ys + (if x = y then 0 else 1) := by
  unfold mmCount
  rw [List.zip_cons_cons, List.countP_cons]
  by_cases h : x = y
  · rw [if_pos h]
    rw [show (!(x == y)) = false from by rw [beq_iff_eq.mpr h]; rfl]
    rw [if_neg Bool.false_ne_true]
  · rw [if_neg h]
    rw [show (!(x == y)) = true from by rw [beq_eq_false_iff_ne.mpr h]; rfl]
    rw [if_pos rfl]

theorem some_beq_some (a b : Char) : (some a == some b) = (a == b) := rfl

/-- The transposition loop counts positionwise mismatches of the two
masked character sequences. -/
theorem foldl_trans (s2 : List Char) (s1m s2m : List Bool)
    (hlen2 : s2m.length = s2.length) :
    ∀ (l : List (Nat × Char)) (k t : Nat),
      l.countP (fun ic => s1m.getD ic.1 false) ≤ (trueIdxs s2m k).length →
      (l.foldl
        (fun (st : Nat × Nat) ic =>
          if s1m.getD ic.1 false then
            let k := nextTrue s2m st.1
            (k + 1, if s2.get? k == some ic.2 then st.2 else st.2 + 1)
          else st)
        (k, t)).2 =
        t + mmCount ((l.filter (fun ic => s1m.getD ic.1 false)).map (·.2))
          (maskChars s2 s2m k) := by
  intro l
  induction l with
  | nil =>
    intro k t _
    simp [mmCount]
  | cons ic l ih =>
    intro k t hcnt
    simp only [List.countP_cons] at hcnt
    rw [List.foldl_cons, List.filter_cons]
    cases hflag : s1m.getD ic.1 false
    · rw [if_neg Bool.false_ne_true]
      rw [if_neg Bool.false_ne_true]
      rw [hflag] at hcnt
      rw [if_neg Bool.false_ne_true] at hcnt
      exact ih k t (by omega)
    · rw [if_pos rfl]
      rw [if_pos rfl]
      rw [hflag] at hcnt
      rw [if_pos rfl] at hcnt
      rcases htr : trueIdxs s2m k with _ | ⟨j, rest⟩
      · rw [htr] at hcnt
        simp at hcnt
      · have spec := trueIdxs_cons_spec (s2m.length - k) k j rest (le_refl _) htr
        have hjlen : j < s2.length := by rw [← hlen2]; exact spec.2.2.2.2
        have hget : s2.get? j = some (s2.getD j 'a') := by
          rw [List.get?_eq_getElem?, List.getElem?_eq_getElem hjlen,
            List.getD_eq_getElem s2 'a' hjlen]
        rw [List.map_cons]
        rw [show maskChars s2 s2m k = s2.getD j 'a' :: maskChars s2 s2m (j + 1) from by
          unfold maskChars
          rw [htr, spec.2.1, List.map_cons]]
        rw [mmCount_cons]
        have hrest : l.countP (fun ic => s1m.getD ic.1 false) ≤
            (trueIdxs s2m (j + 1)).length := by
          rw [spec.2.1]
          rw [htr, List.length_cons] at hcnt
          omega
        dsimp only
        rw [spec.1, hget, some_beq_some]
        by_cases hxy : s2.getD j 'a' = ic.2
        · rw [beq_iff_eq.mpr hxy]
          rw [if_pos rfl]
          rw [if_pos hxy.symm]
          rw [ih (j + 1) t hrest]
          omega
        · rw [beq_eq_false_iff_ne.mpr hxy]
          rw [if_neg Bool.false_ne_true]
          rw [if_neg (fun he => hxy he.symm)]
          rw [ih (j + 1) (t + 1) hrest]
          omega



theorem transLoop_eq (s1 s2 : List Char) (s1m s2m : List Bool)
    (hlen1 : s1m.length = s1.length) (hlen2 : s2m.length = s2.length)
    (hcnt : s1m.count true ≤ s2m.count true) :
    transLoop s1 s2 s1m s2m = mmCount (maskChars s1 s1m 0) (maskChars s2 s2m 0) := by
  unfold transLoop
  have hb : s1.enum.countP (fun ic => s1m.getD ic.1 false) = s1m.count true := by
    have h := enumFrom_countP s1 s1m hlen1 s1 0 (by rw [List.drop_zero])
    rw [show s1.enum = List.enumFrom 0 s1 from rfl, h, List.drop_zero]
  have hlen0 : (trueIdxs s2m 0).length = s2m.count true := by
    rw [trueIdxs_length s2m s2m.length 0 (by omega), List.drop_zero]
  rw [foldl_trans s2 s1m s2m hlen2 s1.enum 0 0 (by rw [hb, hlen0]; exact hcnt)]
  rw [show ((s1.enum.filter (fun ic => s1m.getD ic.1 false)).map (·.2)) =
      maskChars s1 s1m 0 from by
    have h := enumFrom_filter_chars s1 s1m hlen1 s1 0 (by rw [List.drop_zero])
    rw [show s1.enum = List.enumFrom 0 s1 from rfl]
    exact h]
  omega

theorem beq_comm_char (a b : Char) : (a == b) = (b == a) := by
  by_cases h : a = b
  · rw [h]
  · rw [beq_eq_false_iff_ne.mpr h, beq_eq_false_iff_ne.mpr (fun he => h he.symm)]

theorem mmCount_comm (xs ys : List Char) : mmCount xs ys = mmCount ys xs := by
  unfold mmCount
  rw [show ys.zip xs = (xs.zip ys).map Prod.swap from (List.zip_swap xs ys).symm]
  rw [List.countP_map]
  apply List.countP_congr
  intro p _
  rw [show ((fun (q : Char × Char) => !(q.1 == q.2)) ∘ Prod.swap) p = !(p.2 == p.1) from rfl]
  rw [beq_comm_char p.1 p.2]

theorem maskChars_length (s : List Char) (ms : List Bool) :
    (maskChars s ms 0).length = ms.count true := by
  unfold maskChars
  rw [List.length_map, trueIdxs_length ms ms.length 0 (by omega), List.drop_zero]

theorem mmCount_le (xs ys : List Char) : mmCount xs ys ≤ xs.length := by
  unfold mmCount
  refine le_trans (List.countP_le_length _) ?_
  rw [List.length_zip]
  omega



theorem getD_ff_of_lt {l : List Bool} {j : Nat} (h : j < l.length) :
    l.getD j true = l.getD j false := by
  rw [List.getD_eq_getElem l true h, List.getD_eq_getElem l false h]

theorem lt_of_get?_some {α : Type} {l : List α} {n : Nat} {a : α}
    (h : l.get? n = some a) : n < l.length := by
  rcases List.get?_eq_some.mp h with ⟨hlt, _⟩
  exact hlt

/-- The Python inner window scan coincides with the two-pointer head search
on the unconsumed suffix of the per-character position list. -/
theorem findInWindow_eq_firstInWin (s1 s2 : List Char) (d n : Nat) (cn : Char)
    (s2m : List Bool) (hlen : s2m.length = s2.length)
    (hflags : ∀ j c, s2.get? j = some c → (s2m.getD j false = true ↔
      j ∈ ((zipMRun d (posUp c s1 n) (posUp c s2 s2.length)).1.map (·.2)))) :
    findInWindow s2 s2m cn (n - d) (min (n + d + 1) s2.length) =
      firstInWin d n ((zipMRun d (posUp cn s1 n) (posUp cn s2 s2.length)).2) := by
  have hRB := zipMRun_rest_suffix d (posUp cn s1 n) (posUp cn s2 s2.length)
  have hsorted : ((zipMRun d (posUp cn s1 n) (posUp cn s2 s2.length)).2).Pairwise (· < ·) :=
    List.Pairwise.sublist hRB.sublist (posUp_sorted cn s2 s2.length)
  have hnd := posUp_nodup cn s2 s2.length
  have hpredI : ∀ i, ((!(s2m.getD i true)) && (s2.get? i == some cn)) = true ↔
      (s2.get? i = some cn ∧ s2m.getD i false = false) := by
    intro i
    rw [Bool.and_eq_true, Bool.not_eq_true']
    constructor
    · rintro ⟨hf, hc⟩
      exact ⟨beq_iff_eq.mp hc, getD_false_of_getD_true hf⟩
    · rintro ⟨hc, hf⟩
      have hi : i < s2m.length := by
        rw [hlen]
        exact lt_of_get?_some hc
      rw [getD_ff_of_lt hi]
      exact ⟨hf, beq_iff_eq.mpr hc⟩
  have hunm : ∀ i, s2.get? i = some cn → s2m.getD i false = false →
      i ∈ (zipMRun d (posUp cn s1 n) (posUp cn s2 s2.length)).2 ∨ i + d < n := by
    intro i hc hf
    have hiB : i ∈ posUp cn s2 s2.length :=
      mem_posUp.mpr ⟨lt_of_get?_some hc, hc⟩
    have hnm : i ∉ (zipMRun d (posUp cn s1 n) (posUp cn s2 s2.length)).1.map (·.2) := by
      intro hm
      rw [(hflags i cn hc).mpr hm] at hf
      cases hf
    by_cases hR : i ∈ (zipMRun d (posUp cn s1 n) (posUp cn s2 s2.length)).2
    · exact .inl hR
    · exact .inr (zipMRun_dropped d n (posUp cn s1 n) (posUp cn s2 s2.length)
        (fun a ha => posUp_lt a ha) i hiB hnm hR)
  have hRfacts : ∀ b ∈ (zipMRun d (posUp cn s1 n) (posUp cn s2 s2.length)).2,
      s2.get? b = some cn ∧ s2m.getD b false = false ∧ b < s2.length := by
    intro b hb
    have hbB : b ∈ posUp cn s2 s2.length := hRB.subset hb
    have h1 := mem_posUp.mp hbB
    refine ⟨h1.2, ?_, h1.1⟩
    have hnm := zipMRun_rest_disjoint d (posUp cn s1 n) (posUp cn s2 s2.length) hnd b hb
    cases hfl : s2m.getD b false
    · rfl
    · exact absurd ((hflags b cn h1.2).mp hfl) hnm
  cases hY : firstInWin d n ((zipMRun d (posUp cn s1 n) (posUp cn s2 s2.length)).2) with
  | some b =>
    have hspec := (firstInWin_some_iff d n _ hsorted b).mp hY
    have hbf := hRfacts b hspec.1
    unfold findInWindow
    apply (find?_range'_eq_some_iff _ _ _ _).mpr
    refine ⟨?_, by omega, ?_, ?_⟩
    · show ((!(s2m.getD b true)) && (s2.get? b == some cn)) = true
      exact (hpredI b).mpr ⟨hbf.1, hbf.2.1⟩
    · have hblt : b < min (n + d + 1) s2.length := by
        have h1 := hspec.2.2.1
        have h2 := hbf.2.2
        omega
      omega
    · intro i h1 h2
      show ((!(s2m.getD i true)) && (s2.get? i == some cn)) = false
      cases hpi : ((!(s2m.getD i true)) && (s2.get? i == some cn)) with
      | false => rfl
      | true =>
        exfalso
        have hps := (hpredI i).mp hpi
        rcases hunm i hps.1 hps.2 with hiR | hid
        · have := hspec.2.2.2 i hiR h2
          omega
        · omega
  | none =>
    have hspec := (firstInWin_none_iff d n _ hsorted).mp hY
    unfold findInWindow
    apply (find?_range'_eq_none_iff _ _ _).mpr
    intro i h1 h2
    show ((!(s2m.getD i true)) && (s2.get? i == some cn)) = false
    cases hpi : ((!(s2m.getD i true)) && (s2.get? i == some cn)) with
    | false => rfl
    | true =>
      exfalso
      have hps := (hpredI i).mp hpi
      rcases hunm i hps.1 hps.2 with hiR | hid
      · rcases hspec i hiR with h | h
        · omega
        · omega
      · omega



def matchFoldSt (s1 s2 : List Char) (d n : Nat) : List Bool × List Bool × Nat :=
  (s1.enum.take n).foldl (matchStep s2 d) ([], List.replicate s2.length false, 0)

theorem getD_set_self {l : List Bool} {j : Nat} (v : Bool) (h : j < l.length) :
    (l.set j v).getD j false = v := by
  rw [List.getD_eq_getElem _ false (by rw [List.length_set]; exact h)]
  rw [List.getElem_set_self]

theorem getD_set_ne {l : List Bool} {i j : Nat} (v : Bool) (h : i ≠ j) :
    (l.set i v).getD j false = l.getD j false := by
  by_cases hj : j < l.length
  · rw [List.getD_eq_getElem _ false (by rw [List.length_set]; exact hj),
      List.getD_eq_getElem _ false hj]
    exact List.getElem_set_ne h _
  · rw [List.getD_eq_default _ _ (by rw [List.length_set]; omega),
      List.getD_eq_default _ _ (by omega)]

theorem getD_replicate_false (n j : Nat) :
    (List.replicate n false).getD j false = false := by
  by_cases h : j < n
  · rw [List.getD_eq_getElem _ _ (by simpa using h)]
    exact List.getElem_replicate _ _
  · rw [List.getD_eq_default _ _ (by simpa using h)]

/-- One step of the match loop preserves the per-character two-pointer
description of both flag vectors. -/
theorem matchStep_inv (s1 s2 : List Char) (d n : Nat) (cn : Char)
    (hcn : s1.get? n = some cn) (st : List Bool × List Bool × Nat)
    (hl1 : st.1.length = n) (hl2 : st.2.1.length = s2.length)
    (h3 : ∀ j c, s2.get? j = some c → (st.2.1.getD j false = true ↔
      j ∈ ((zipMRun d (posUp c s1 n) (posUp c s2 s2.length)).1.map (·.2))))
    (h4 : ∀ i c, i < n → s1.get? i = some c → (st.1.getD i false = true ↔
      i ∈ ((zipMRun d (posUp c s1 n) (posUp c s2 s2.length)).1.map (·.1)))) :
    (matchStep s2 d st (n, cn)).1.length = n + 1 ∧
    (matchStep s2 d st (n, cn)).2.1.length = s2.length ∧
    (∀ j c, s2.get? j = some c → ((matchStep s2 d st (n, cn)).2.1.getD j false = true ↔
      j ∈ ((zipMRun d (posUp c s1 (n + 1)) (posUp c s2 s2.length)).1.map (·.2)))) ∧
    (∀ i c, i < n + 1 → s1.get? i = some c →
      ((matchStep s2 d st (n, cn)).1.getD i false = true ↔
        i ∈ ((zipMRun d (posUp c s1 (n + 1)) (posUp c s2 s2.length)).1.map (·.1)))) := by
  have hA : posUp cn s1 (n + 1) = posUp cn s1 n ++ [n] := by
    rw [posUp_succ, if_pos hcn]
  have hAne : ∀ c, c ≠ cn → posUp c s1 (n + 1) = posUp c s1 n := by
    intro c hc
    rw [posUp_succ, if_neg (by intro h; rw [hcn] at h; exact hc (Option.some.inj h).symm)]
    rw [List.append_nil]
  have hbridge := findInWindow_eq_firstInWin s1 s2 d n cn st.2.1 hl2 h3
  have hsingle := zipMRun_single d n ((zipMRun d (posUp cn s1 n) (posUp cn s2 s2.length)).2)
  have hpairs : (zipMRun d (posUp cn s1 (n + 1)) (posUp cn s2 s2.length)).1 =
      (zipMRun d (posUp cn s1 n) (posUp cn s2 s2.length)).1 ++
      (zipMRun d [n] ((zipMRun d (posUp cn s1 n) (posUp cn s2 s2.length)).2)).1 := by
    rw [hA, zipMRun_append]
  cases hfw : firstInWin d n ((zipMRun d (posUp cn s1 n) (posUp cn s2 s2.length)).2) with
  | none =>
    have hst : matchStep s2 d st (n, cn) = (st.1 ++ [false], st.2.1, st.2.2) := by
      unfold matchStep
      dsimp only
      rw [hbridge, hfw]
    have hQ : (zipMRun d [n] ((zipMRun d (posUp cn s1 n) (posUp cn s2 s2.length)).2)).1
        = [] := by
      rw [hsingle, hfw]
    refine ⟨by rw [hst]; simp [hl1], by rw [hst]; exact hl2, ?_, ?_⟩
    · intro j c hjc
      rw [hst]
      by_cases hcc : c = cn
      · subst hcc
        rw [hpairs, hQ, List.append_nil]
        exact h3 j c hjc
      · rw [hAne c hcc]
        exact h3 j c hjc
    · intro i c hi hic
      rcases Nat.lt_succ_iff_lt_or_eq.mp hi with hi' | hi'
      · rw [hst]
        rw [show (st.1 ++ [false]).getD i false = st.1.getD i false from
          List.getD_append _ _ _ _ (by rw [hl1]; exact hi')]
        by_cases hcc : c = cn
        · subst hcc
          rw [hpairs, hQ, List.append_nil]
          exact h4 i c hi' hic
        · rw [hAne c hcc]
          exact h4 i c hi' hic
      · have hceq : c = cn := by
          rw [hi'] at hic
          rw [hcn] at hic
          exact (Option.some.inj hic).symm
        rw [hceq, hi', hst]
        rw [show (st.1 ++ [false]).getD n false = false from by
          rw [List.getD_append_right _ _ _ _ (by rw [hl1])]
          rw [hl1, Nat.sub_self]
          rfl]
        constructor
        · intro h; cases h
        · intro hm
          exfalso
          rw [hpairs, hQ, List.append_nil] at hm
          rcases List.mem_map.mp hm with ⟨p, hp, hpe⟩
          have hmem := (zipMRun_pairs_mem d _ _ p hp).1
          have hlt := posUp_lt p.1 hmem
          omega
  | some b =>
    have hRB := zipMRun_rest_suffix d (posUp cn s1 n) (posUp cn s2 s2.length)
    have hsorted : ((zipMRun d (posUp cn s1 n) (posUp cn s2 s2.length)).2).Pairwise (· < ·) :=
      List.Pairwise.sublist hRB.sublist (posUp_sorted cn s2 s2.length)
    have hspec := (firstInWin_some_iff d n _ hsorted b).mp hfw
    have hbB : b ∈ posUp cn s2 s2.length := hRB.subset hspec.1
    have hbm := mem_posUp.mp hbB
    have hst : matchStep s2 d st (n, cn) =
        (st.1 ++ [true], st.2.1.set b true, st.2.2 + 1) := by
      unfold matchStep
      dsimp only
      rw [hbridge, hfw]
    have hQ : (zipMRun d [n] ((zipMRun d (posUp cn s1 n) (posUp cn s2 s2.length)).2)).1
        = [(n, b)] := by
      rw [hsingle, hfw]
    refine ⟨by rw [hst]; simp [hl1], by rw [hst]; rw [List.length_set]; exact hl2, ?_, ?_⟩
    · intro j c hjc
      rw [hst]
      by_cases hcc : c = cn
      · subst hcc
        rw [hpairs, hQ, List.map_append]
        by_cases hjb : j = b
        · subst hjb
          rw [getD_set_self true (by rw [hl2]; exact hbm.1)]
          constructor
          · intro _
            exact List.mem_append_right _ (by simp)
          · intro _; rfl
        · rw [getD_set_ne true (fun he => hjb he.symm)]
          constructor
          · intro h
            exact List.mem_append_left _ ((h3 j c hjc).mp h)
          · intro h
            rcases List.mem_append.mp h with h | h
            · exact (h3 j c hjc).mpr h
            · exfalso
              simp at h
              exact hjb h
      · have hjb : j ≠ b := by
          intro he
          subst he
          have hx := hbm.2
          rw [hjc] at hx
          exact hcc (Option.some.inj hx)
        rw [getD_set_ne true (fun he => hjb he.symm), hAne c hcc]
        exact h3 j c hjc
    · intro i c hi hic
      rcases Nat.lt_succ_iff_lt_or_eq.mp hi with hi' | hi'
      · rw [hst]
        rw [show (st.1 ++ [true]).getD i false = st.1.getD i false from
          List.getD_append _ _ _ _ (by rw [hl1]; exact hi')]
        by_cases hcc : c = cn
        · subst hcc
          rw [hpairs, hQ, List.map_append]
          constructor
          · intro h
            exact List.mem_append_left _ ((h4 i c hi' hic).mp h)
          · intro h
            rcases List.mem_append.mp h with h | h
            · exact (h4 i c hi' hic).mpr h
            · exfalso
              simp at h
              omega
        · rw [hAne c hcc]
          exact h4 i c hi' hic
      · have hceq : c = cn := by
          rw [hi'] at hic
          rw [hcn] at hic
          exact (Option.some.inj hic).symm
        rw [hceq, hi', hst]
        rw [show (st.1 ++ [true]).getD n false = true from by
          rw [List.getD_append_right _ _ _ _ (by rw [hl1])]
          rw [hl1, Nat.sub_self]
          rfl]
        constructor
        · intro _
          rw [hpairs, hQ, List.map_append]
          exact List.mem_append_right _ (by simp)
        · intro _; rfl



theorem matchFold_inv (s1 s2 : List Char) (d : Nat) :
    ∀ n, n ≤ s1.length →
      ((matchFoldSt s1 s2 d n).1.length = n ∧
       (matchFoldSt s1 s2 d n).2.1.length = s2.length ∧
       (∀ j c, s2.get? j = some c → ((matchFoldSt s1 s2 d n).2.1.getD j false = true ↔
         j ∈ ((zipMRun d (posUp c s1 n) (posUp c s2 s2.length)).1.map (·.2)))) ∧
       (∀ i c, i < n → s1.get? i = some c →
         ((matchFoldSt s1 s2 d n).1.getD i false = true ↔
           i ∈ ((zipMRun d (posUp c s1 n) (posUp c s2 s2.length)).1.map (·.1))))) := by
  intro n
  induction n with
  | zero =>
    intro _
    refine ⟨rfl, by simp [matchFoldSt], ?_, ?_⟩
    · intro j c hjc
      show ((List.replicate s2.length false).getD j false = true ↔ _)
      rw [getD_replicate_false]
      rw [show posUp c s1 0 = [] from rfl]
      rw [show zipMRun d [] (posUp c s2 s2.length) = ([], posUp c s2 s2.length) from by
        rw [zipMRun]]
      simp
    · intro i c hi
      exact absurd hi (Nat.not_lt_zero i)
  | succ n ih =>
    intro hn
    obtain ⟨cn, hcn⟩ : ∃ cn, s1.get? n = some cn := by
      rcases hg : s1.get? n with _ | cn
      · have := List.get?_eq_none.mp hg
        omega
      · exact ⟨cn, rfl⟩
    have hprev := ih (by omega)
    have hstep := matchStep_inv s1 s2 d n cn hcn (matchFoldSt s1 s2 d n)
      hprev.1 hprev.2.1 hprev.2.2.1 hprev.2.2.2
    have hfold : matchFoldSt s1 s2 d (n + 1) =
        matchStep s2 d (matchFoldSt s1 s2 d n) (n, cn) := by
      unfold matchFoldSt
      rw [List.take_succ]
      rw [show s1.enum[n]? = some (n, cn) from by
        rw [← List.get?_eq_getElem?, List.get?_enum, hcn]
        rfl]
      rw [List.foldl_append]
      rfl
    rw [hfold]
    exact hstep

theorem jaroMatch_eq_foldSt (s1 s2 : List Char) (d : Nat) :
    jaroMatch s1 s2 d = matchFoldSt s1 s2 d s1.length := by
  unfold jaroMatch matchFoldSt
  rw [List.take_of_length_le (by rw [List.enum_length])]

theorem jaroMatch_flags (s1 s2 : List Char) (d : Nat) :
    (∀ j c, s2.get? j = some c → ((jaroMatch s1 s2 d).2.1.getD j false = true ↔
      j ∈ ((zipMRun d (posUp c s1 s1.length) (posUp c s2 s2.length)).1.map (·.2)))) ∧
    (∀ i c, s1.get? i = some c → ((jaroMatch s1 s2 d).1.getD i false = true ↔
      i ∈ ((zipMRun d (posUp c s1 s1.length) (posUp c s2 s2.length)).1.map (·.1)))) := by
  have h := matchFold_inv s1 s2 d s1.length (le_refl _)
  rw [jaroMatch_eq_foldSt]
  exact ⟨h.2.2.1, fun i c hic => h.2.2.2 i c (lt_of_get?_some hic) hic⟩

theorem bool_eq_of_iff {a b : Bool} (h : a = true ↔ b = true) : a = b := by
  cases a <;> cases b <;> simp_all

/-- The s1-side flag vector of the run on (s1, s2) equals the s2-side flag
vector of the run on (s2, s1). -/
theorem flags_swap (s1 s2 : List Char) (d : Nat) :
    (jaroMatch s1 s2 d).1 = (jaroMatch s2 s1 d).2.1 := by
  have c12 := jaroMatch_counts s1 s2 d
  have c21 := jaroMatch_counts s2 s1 d
  apply List.ext_getElem
  · rw [c12.2.2.2, c21.1]
  · intro i h1 h2
    rw [← List.getD_eq_getElem _ false h1, ← List.getD_eq_getElem _ false h2]
    obtain ⟨c, hc⟩ : ∃ c, s1.get? i = some c := by
      rcases hg : s1.get? i with _ | c
      · have := List.get?_eq_none.mp hg
        rw [c12.2.2.2] at h1
        omega
      · exact ⟨c, rfl⟩
    apply bool_eq_of_iff
    rw [(jaroMatch_flags s1 s2 d).2 i c hc, (jaroMatch_flags s2 s1 d).1 i c hc]
    rw [show (zipMRun d (posUp c s1 s1.length) (posUp c s2 s2.length)).1.map (·.1) =
        (zipMRun d (posUp c s2 s2.length) (posUp c s1 s1.length)).1.map (·.2) from by
      rw [← zipMRun_swap d (posUp c s2 s2.length) (posUp c s1 s1.length), List.map_map]
      rfl]

theorem jaroMatch_m_comm (s1 s2 : List Char) (d : Nat) :
    (jaroMatch s1 s2 d).2.2 = (jaroMatch s2 s1 d).2.2 := by
  have c12 := jaroMatch_counts s1 s2 d
  have c21 := jaroMatch_counts s2 s1 d
  rw [c12.2.1, ← c21.2.2.1, flags_swap s2 s1 d]

theorem transLoop_comm (s1 s2 : List Char) (d : Nat) :
    transLoop s1 s2 (jaroMatch s1 s2 d).1 (jaroMatch s1 s2 d).2.1 =
    transLoop s2 s1 (jaroMatch s2 s1 d).1 (jaroMatch s2 s1 d).2.1 := by
  have c12 := jaroMatch_counts s1 s2 d
  have c21 := jaroMatch_counts s2 s1 d
  rw [transLoop_eq s1 s2 _ _ c12.2.2.2 c12.1
    (le_of_eq (by rw [c12.2.2.1, ← c12.2.1]))]
  rw [transLoop_eq s2 s1 _ _ c21.2.2.2 c21.1
    (le_of_eq (by rw [c21.2.2.1, ← c21.2.1]))]
  rw [show (jaroMatch s2 s1 d).1 = (jaroMatch s1 s2 d).2.1 from flags_swap s2 s1 d]
  rw [show (jaroMatch s2 s1 d).2.1 = (jaroMatch s1 s2 d).1 from (flags_swap s1 s2 d).symm]
  rw [mmCount_comm]



theorem jaroSimilarity_comm (s1 s2 : List Char) :
    jaroSimilarity s1 s2 = jaroSimilarity s2 s1 := by
  unfold jaroSimilarity
  by_cases heq : s1 = s2
  · rw [if_pos heq, if_pos heq.symm]
  · have heq' : ¬s2 = s1 := fun h => heq h.symm
    rw [if_neg heq, if_neg heq']
    by_cases h0 : s1.length = 0 ∨ s2.length = 0
    · have h0' : s2.length = 0 ∨ s1.length = 0 := Or.symm h0
      rw [if_pos h0, if_pos h0']
    · have h0' : ¬(s2.length = 0 ∨ s1.length = 0) := fun h => h0 (Or.symm h)
      rw [if_neg h0, if_neg h0']
      rw [show max s2.length s1.length = max s1.length s2.length from Nat.max_comm _ _]
      dsimp only
      rw [← jaroMatch_m_comm s1 s2 (max s1.length s2.length / 2 - 1)]
      by_cases hm : (jaroMatch s1 s2 (max s1.length s2.length / 2 - 1)).2.2 = 0
      · rw [if_pos hm, if_pos hm]
      · rw [if_neg hm, if_neg hm]
        rw [← transLoop_comm s1 s2 (max s1.length s2.length / 2 - 1)]
        ring

theorem cpLen_comm : ∀ (n : Nat) (a b : List Char), cpLen a b n = cpLen b a n := by
  intro n
  induction n with
  | zero => intro a b; cases a <;> cases b <;> rfl
  | succ n ih =>
    intro a b
    cases a with
    | nil => cases b <;> rfl
    | cons x xs =>
      cases b with
      | nil => rfl
      | cons y ys =>
        show (if x = y then 1 + cpLen xs ys n else 0) =
          (if y = x then 1 + cpLen ys xs n else 0)
        by_cases h : x = y
        · rw [if_pos h, if_pos h.symm, ih]
        · rw [if_neg h, if_neg (fun he => h he.symm)]

theorem cpLen_le : ∀ (n : Nat) (a b : List Char), cpLen a b n ≤ n := by
  intro n
  induction n with
  | zero => intro a b; cases a <;> cases b <;> exact le_refl 0
  | succ n ih =>
    intro a b
    cases a with
    | nil => cases b <;> exact Nat.zero_le _
    | cons x xs =>
      cases b with
      | nil => exact Nat.zero_le _
      | cons y ys =>
        show (if x = y then 1 + cpLen xs ys n else 0) ≤ n + 1
        by_cases h : x = y
        · rw [if_pos h]
          have := ih xs ys
          omega
        · rw [if_neg h]
          omega

theorem jaroWinkler_comm (s1 s2 : List Char) : jaroWinkler s1 s2 = jaroWinkler s2 s1 := by
  unfold jaroWinkler
  rw [jaroSimilarity_comm, show cpLen s1 s2 4 = cpLen s2 s1 4 from cpLen_comm 4 s1 s2]

theorem jaroSimilarity_bounds (s1 s2 : List Char) :
    0 ≤ jaroSimilarity s1 s2 ∧ jaroSimilarity s1 s2 ≤ 1 := by
  unfold jaroSimilarity
  by_cases heq : s1 = s2
  · rw [if_pos heq]
    norm_num
  · rw [if_neg heq]
    by_cases h0 : s1.length = 0 ∨ s2.length = 0
    · rw [if_pos h0]
      norm_num
    · rw [if_neg h0]
      dsimp only
      by_cases hm : (jaroMatch s1 s2 (max s1.length s2.length / 2 - 1)).2.2 = 0
      · rw [if_pos hm]
        norm_num
      · rw [if_neg hm]
        have c := jaroMatch_counts s1 s2 (max s1.length s2.length / 2 - 1)
        have hm1 : (jaroMatch s1 s2 (max s1.length s2.length / 2 - 1)).2.2 ≤ s1.length := by
          have h1 := List.count_le_length true
            (jaroMatch s1 s2 (max s1.length s2.length / 2 - 1)).1
          rw [c.2.2.1, c.2.2.2] at h1
          exact h1
        have hm2 : (jaroMatch s1 s2 (max s1.length s2.length / 2 - 1)).2.2 ≤ s2.length := by
          have h2 := List.count_le_length true
            (jaroMatch s1 s2 (max s1.length s2.length / 2 - 1)).2.1
          rw [← c.2.1, c.1] at h2
          exact h2
        have ht : transLoop s1 s2 (jaroMatch s1 s2 (max s1.length s2.length / 2 - 1)).1
            (jaroMatch s1 s2 (max s1.length s2.length / 2 - 1)).2.1 ≤
            (jaroMatch s1 s2 (max s1.length s2.length / 2 - 1)).2.2 := by
          rw [transLoop_eq s1 s2 _ _ c.2.2.2 c.1 (le_of_eq (by rw [c.2.2.1, ← c.2.1]))]
          refine le_trans (mmCount_le _ _) ?_
          rw [maskChars_length, c.2.2.1]
        have hl1 : 0 < s1.length := by omega
        have hl2 : 0 < s2.length := by omega
        have hmq : (0 : ℚ) < (jaroMatch s1 s2 (max s1.length s2.length / 2 - 1)).2.2 := by
          exact_mod_cast Nat.pos_of_ne_zero hm
        have hl1q : (0 : ℚ) < s1.length := by exact_mod_cast hl1
        have hl2q : (0 : ℚ) < s2.length := by exact_mod_cast hl2
        have hm1q : ((jaroMatch s1 s2 (max s1.length s2.length / 2 - 1)).2.2 : ℚ) ≤
            s1.length := by exact_mod_cast hm1
        have hm2q : ((jaroMatch s1 s2 (max s1.length s2.length / 2 - 1)).2.2 : ℚ) ≤
            s2.length := by exact_mod_cast hm2
        have htq : ((transLoop s1 s2 (jaroMatch s1 s2 (max s1.length s2.length / 2 - 1)).1
            (jaroMatch s1 s2 (max s1.length s2.length / 2 - 1)).2.1 : Nat) : ℚ) ≤
            (jaroMatch s1 s2 (max s1.length s2.length / 2 - 1)).2.2 := by
          exact_mod_cast ht
        have ht0 : (0 : ℚ) ≤ ((transLoop s1 s2
            (jaroMatch s1 s2 (max s1.length s2.length / 2 - 1)).1
            (jaroMatch s1 s2 (max s1.length s2.length / 2 - 1)).2.1 : Nat) : ℚ) := by
          positivity
        constructor
        · have h1 : (0 : ℚ) ≤ ((jaroMatch s1 s2 (max s1.length s2.length / 2 - 1)).2.2 : ℚ) /
              s1.length := by positivity
          have h2 : (0 : ℚ) ≤ ((jaroMatch s1 s2 (max s1.length s2.length / 2 - 1)).2.2 : ℚ) /
              s2.length := by positivity
          have h3 : (0 : ℚ) ≤ (((jaroMatch s1 s2 (max s1.length s2.length / 2 - 1)).2.2 : ℚ) -
              ((transLoop s1 s2 (jaroMatch s1 s2 (max s1.length s2.length / 2 - 1)).1
                (jaroMatch s1 s2 (max s1.length s2.length / 2 - 1)).2.1 : Nat) : ℚ) / 2) /
              (jaroMatch s1 s2 (max s1.length s2.length / 2 - 1)).2.2 := by
            apply div_nonneg _ (le_of_lt hmq)
            linarith
          linarith
        · have h1 : ((jaroMatch s1 s2 (max s1.length s2.length / 2 - 1)).2.2 : ℚ) /
              s1.length ≤ 1 := by
            rw [div_le_one hl1q]
            exact hm1q
          have h2 : ((jaroMatch s1 s2 (max s1.length s2.length / 2 - 1)).2.2 : ℚ) /
              s2.length ≤ 1 := by
            rw [div_le_one hl2q]
            exact hm2q
          have h3 : (((jaroMatch s1 s2 (max s1.length s2.length / 2 - 1)).2.2 : ℚ) -
              ((transLoop s1 s2 (jaroMatch s1 s2 (max s1.length s2.length / 2 - 1)).1
                (jaroMatch s1 s2 (max s1.length s2.length / 2 - 1)).2.1 : Nat) : ℚ) / 2) /
              (jaroMatch s1 s2 (max s1.length s2.length / 2 - 1)).2.2 ≤ 1 := by
            rw [div_le_one hmq]
            linarith
          linarith

theorem jaroWinkler_bounds (s1 s2 : List Char) :
    0 ≤ jaroWinkler s1 s2 ∧ jaroWinkler s1 s2 ≤ 1 := by
  unfold jaroWinkler
  have hj := jaroSimilarity_bounds s1 s2
  have hp : cpLen s1 s2 4 ≤ 4 := cpLen_le 4 s1 s2
  have hpq : ((cpLen s1 s2 4 : Nat) : ℚ) ≤ 4 := by exact_mod_cast hp
  have hp0 : (0 : ℚ) ≤ ((cpLen s1 s2 4 : Nat) : ℚ) := by positivity
  constructor
  · have : (0 : ℚ) ≤ ((cpLen s1 s2 4 : Nat) : ℚ) * (1 / 10) * (1 - jaroSimilarity s1 s2) := by
      apply mul_nonneg (by positivity)
      linarith [hj.2]
    linarith [hj.1]
  · have hb : ((cpLen s1 s2 4 : Nat) : ℚ) * (1 / 10) * (1 - jaroSimilarity s1 s2) ≤
        1 * (1 - jaroSimilarity s1 s2) := by
      apply mul_le_mul_of_nonneg_right _ (by linarith [hj.2])
      linarith
    linarith

theorem jaroWinkler_self (s : List Char) : jaroWinkler s s = 1 := by
  unfold jaroWinkler
  rw [show jaroSimilarity s s = 1 from by unfold jaroSimilarity; rw [if_pos rfl]]
  ring

theorem cpLen_nil_right (a : List Char) (n : Nat) : cpLen a [] n = 0 := by
  cases a <;> cases n <;> rfl

theorem cpLen_nil_left (b : List Char) (n : Nat) : cpLen [] b n = 0 := by
  cases b <;> cases n <;> rfl

theorem jaroWinkler_nil_right (s : List Char) (h : s ≠ []) : jaroWinkler s [] = 0 := by
  unfold jaroWinkler
  rw [show jaroSimilarity s [] = 0 from by
    unfold jaroSimilarity
    rw [if_neg h]
    dsimp only
    rw [if_pos (Or.inr List.length_nil)]]
  rw [cpLen_nil_right]
  ring

theorem jaroWinkler_nil_left (s : List Char) (h : s ≠ []) : jaroWinkler [] s = 0 := by
  rw [jaroWinkler_comm]
  exact jaroWinkler_nil_right s h



theorem data_ne_nil {s : String} (h : s ≠ "") : s.data ≠ [] := by
  intro hd
  apply h
  cases s with
  | mk data =>
    rw [show data = [] from hd]

/-- C5: over the embedded _jaro_winkler, similarity is symmetric and lies in
[0,1] for all string pairs; identical strings (including empty) score 1; a
non-empty string against the empty string scores 0 either way round. -/
theorem C5_jaro_winkler :
    (∀ s1 s2 : String, jaroWinklerS s1 s2 = jaroWinklerS s2 s1) ∧
    (∀ s1 s2 : String, 0 ≤ jaroWinklerS s1 s2 ∧ jaroWinklerS s1 s2 ≤ 1) ∧
    (∀ s : String, jaroWinklerS s s = 1) ∧
    (∀ s : String, s ≠ "" → jaroWinklerS s "" = 0 ∧ jaroWinklerS "" s = 0) := by
  refine ⟨fun s1 s2 => jaroWinkler_comm s1.data s2.data,
    fun s1 s2 => jaroWinkler_bounds s1.data s2.data,
    fun s => jaroWinkler_self s.data,
    fun s hs => ?_⟩
  have hd : s.data ≠ [] := data_ne_nil hs
  constructor
  · unfold jaroWinklerS
    rw [show ("" : String).data = [] from rfl]
    exact jaroWinkler_nil_right s.data hd
  · unfold jaroWinklerS
    rw [show ("" : String).data = [] from rfl]
    exact jaroWinkler_nil_left s.data hd

/-- C5, witness: the non-empty-vs-empty clause instantiated at "x". -/
theorem C5_witness :
    ("x" : String) ≠ "" ∧ jaroWinklerS "x" "" = 0 ∧ jaroWinklerS "" "x" = 0 := by
  have h : ("x" : String) ≠ "" := by decide
  exact ⟨h, (C5_jaro_winkler.2.2.2 "x" h).1, (C5_jaro_winkler.2.2.2 "x" h).2⟩

/-! ## Claim C2: termination of the positional-output merge -/

/-- The merge loop terminates for some fuel (the while loop exits). -/
def mergeTerminates (named : List (String × String)) (v1 : List String) : Prop :=
  ∃ fuel, mergeOutputs fuel named v1 ≠ none

/-- Task._to_dict never returns, whatever the fuel. -/
def taskToDictDiverges (t : Task) : Prop :=
  ∀ fuel, taskToDict fuel t = none

/-- Modelled from the spec words for the output merge: each positional output
at index idx gets key output_idx, or — when that collides with a key already
in the map — output_idx_idx, re-checked once; when the renamed key is also
taken there is no further renaming to try. -/
def mergeSpec : List (String × String) → Nat → List String → Option (List (String × String))
  | merged, _, [] => some merged
  | merged, idx, v :: vs =>
    if hasKey merged (autoKey idx) = false then
      mergeSpec (merged ++ [(autoKey idx, v)]) (idx + 1) vs
    else if hasKey merged (autoKey2 idx) = false then
      mergeSpec (merged ++ [(autoKey2 idx, v)]) (idx + 1) vs
    else none

theorem dinsert_fresh {d : List (String × α)} {k : String} (v : α)
    (h : hasKey d k = false) : dinsert d k v = d ++ [(k, v)] := by
  unfold dinsert
  rw [if_neg (by simp [h])]

theorem autoKeyLoop_fresh {merged : List (String × String)} {key : String} (idx fuel : Nat)
    (h : hasKey merged key = false) : autoKeyLoop fuel merged idx key = some key := by
  cases fuel <;> simp [autoKeyLoop, h]

theorem autoKeyLoop_once {merged : List (String × String)} (idx : Nat) {fuel : Nat}
    (h1 : hasKey merged (autoKey idx) = true) (h2 : hasKey merged (autoKey2 idx) = false)
    (hf : 1 ≤ fuel) : autoKeyLoop fuel merged idx (autoKey idx) = some (autoKey2 idx) := by
  cases fuel with
  | zero => omega
  | succ f =>
    unfold autoKeyLoop
    rw [if_pos (by simp [h1])]
    exact autoKeyLoop_fresh idx f h2

theorem autoKeyLoop_stuck {merged : List (String × String)} (idx : Nat)
    (h2 : hasKey merged (autoKey2 idx) = true) :
    ∀ fuel (key : String), hasKey merged key = true →
      autoKeyLoop fuel merged idx key = none := by
  intro fuel
  induction fuel with
  | zero =>
    intro key h
    simp [autoKeyLoop, h]
  | succ f ih =>
    intro key h
    unfold autoKeyLoop
    rw [if_pos (by simp [h])]
    exact ih _ h2

/-- With at least one unit of fuel the merge loop computes exactly the
spec-side merge. -/
theorem mergeLoop_eq_spec :
    ∀ (v1 : List String) (named : List (String × String)) (idx fuel : Nat), 1 ≤ fuel →
      mergeLoop fuel named idx v1 = mergeSpec named idx v1 := by
  intro v1
  induction v1 with
  | nil => intro named idx fuel _; rfl
  | cons v vs ih =>
    intro named idx fuel hf
    unfold mergeLoop mergeSpec
    by_cases h1 : hasKey named (autoKey idx) = true
    · rw [if_neg (by simp [h1])]
      by_cases h2 : hasKey named (autoKey2 idx) = true
      · rw [autoKeyLoop_stuck idx h2 fuel _ h1]
        rw [if_neg (by simp [h2])]
      · have h2f : hasKey named (autoKey2 idx) = false := by
          cases hv : hasKey named (autoKey2 idx)
          · rfl
          · exact absurd hv h2
        rw [autoKeyLoop_once idx h1 h2f hf, if_pos h2f]
        show mergeLoop fuel (dinsert named (autoKey2 idx) v) (idx + 1) vs = _
        rw [dinsert_fresh v h2f]
        exact ih _ _ fuel hf
    · have h1f : hasKey named (autoKey idx) = false := by
        cases hv : hasKey named (autoKey idx)
        · rfl
        · exact absurd hv h1
      rw [autoKeyLoop_fresh idx fuel h1f, if_pos h1f]
      show mergeLoop fuel (dinsert named (autoKey idx) v) (idx + 1) vs = _
      rw [dinsert_fresh v h1f]
      exact ih _ _ fuel hf

/-- With any fuel the merge loop computes the spec-side merge or runs out. -/
theorem mergeLoop_eq_spec_or_none :
    ∀ (v1 : List String) (named : List (String × String)) (idx fuel : Nat),
      mergeLoop fuel named idx v1 = mergeSpec named idx v1 ∨
      mergeLoop fuel named idx v1 = none := by
  intro v1 named idx fuel
  cases fuel with
  | zero =>
    induction v1 generalizing named idx with
    | nil => exact .inl rfl
    | cons v vs ih =>
      unfold mergeLoop mergeSpec
      by_cases h1 : hasKey named (autoKey idx) = true
      · rw [show autoKeyLoop 0 named idx (autoKey idx) = none from by simp [autoKeyLoop, h1]]
        exact .inr rfl
      · have h1f : hasKey named (autoKey idx) = false := by
          cases hv : hasKey named (autoKey idx)
          · rfl
          · exact absurd hv h1
        rw [autoKeyLoop_fresh idx 0 h1f, if_pos h1f]
        show mergeLoop 0 (dinsert named (autoKey idx) v) (idx + 1) vs =
            mergeSpec (named ++ [(autoKey idx, v)]) (idx + 1) vs ∨
          mergeLoop 0 (dinsert named (autoKey idx) v) (idx + 1) vs = none
        rw [dinsert_fresh v h1f]
        exact ih _ _
  | succ f => exact .inl (mergeLoop_eq_spec v1 named idx (f + 1) (by omega))

/-- C2, amended: the merge computes the spec-side map — each positional
output appended under output_idx, or output_idx_idx when output_idx is
taken — whenever one unit of fuel is granted, and it terminates for some
fuel exactly when at no index both output_idx and output_idx_idx are
already present when index idx is processed (mergeSpec succeeds). -/
theorem C2_merge_spec (named : List (String × String)) (v1 : List String)
    (fuel : Nat) (hf : 1 ≤ fuel) :
    mergeOutputs fuel named v1 = mergeSpec named 0 v1 ∧
    (mergeTerminates named v1 ↔ mergeSpec named 0 v1 ≠ none) := by
  refine ⟨mergeLoop_eq_spec v1 named 0 fuel hf, ?_, ?_⟩
  · rintro ⟨f, hne⟩
    rcases mergeLoop_eq_spec_or_none v1 named 0 f with he | he
    · rw [← he]
      exact hne
    · exact absurd he hne
  · intro hne
    exact ⟨1, by unfold mergeOutputs; rw [mergeLoop_eq_spec v1 named 0 1 (by omega)]; exact hne⟩

/-- A task with explicit keys output_0 and output_0_0 and one positional
output. -/
def c2Task : Task :=
  { mkTask "build" false with
    command := "make"
    outputs := [("output_0", "p1"), ("output_0_0", "p2")]
    outputsV1 := ["z"] }

/-- C2, counterexample: with explicit keys output_0 and output_0_0 both
present, the collision loop re-binds the same renamed key forever: the merge
never terminates and Task._to_dict never returns, contradicting the claimed
termination. -/
theorem C2_counterexample :
    ¬mergeTerminates [("output_0", "p1"), ("output_0_0", "p2")] ["z"] ∧
    taskToDictDiverges c2Task := by
  have hmerge : ∀ fuel,
      mergeOutputs fuel [("output_0", "p1"), ("output_0_0", "p2")] ["z"] = none := by
    intro fuel
    unfold mergeOutputs mergeLoop
    rw [autoKeyLoop_stuck 0 (by decide) fuel _ (by decide)]
  constructor
  · rintro ⟨f, hne⟩
    exact hne (hmerge f)
  · intro fuel
    unfold taskToDict
    rw [show outputsEntry fuel c2Task = none from ?_]
    · rfl
    · unfold outputsEntry
      rw [if_pos (by constructor <;> decide)]
      rw [show mergeOutputs fuel c2Task.outputs c2Task.outputsV1 = none from hmerge fuel]

/-- C2, witness: on a task whose explicit key output_0 collides once, the
merge terminates and renames the positional output to output_0_0. -/
theorem C2_witness :
    mergeOutputs 2 [("output_0", "a")] ["z"] = mergeSpec [("output_0", "a")] 0 ["z"] ∧
    (mergeTerminates [("output_0", "a")] ["z"] ↔
      mergeSpec [("output_0", "a")] 0 ["z"] ≠ none) ∧
    mergeSpec [("output_0", "a")] 0 ["z"] = some [("output_0", "a"), ("output_0_0", "z")] := by
  have h := C2_merge_spec [("output_0", "a")] ["z"] 2 (by omega)
  exact ⟨h.1, h.2, by decide⟩

/-- C1, witness: the amended theorem applied to the concrete gate. -/
theorem C1_witness :
    c1Gate.isGate = true ∧ taskToDict 1 c1Gate = some c1Dict ∧
    ((∃ g, lookupD c1Dict "gate" = some (JVal.obj g) ∧
      lookupD g "strategy" = some (JVal.s c1Gate.gateStrategy) ∧
      lookupD g "timeout" =
        (if c1Gate.gateTimeout = 0 then none else some (JVal.n c1Gate.gateTimeout)) ∧
      lookupD g "message" =
        (if c1Gate.gateMessage = "" then none else some (JVal.s c1Gate.gateMessage)) ∧
      lookupD g "env_var" =
        (if c1Gate.gateEnvVar = "" then none else some (JVal.s c1Gate.gateEnvVar)) ∧
      lookupD g "file_path" =
        (if c1Gate.gateFilePath = "" then none else some (JVal.s c1Gate.gateFilePath))) ∧
    lookupD c1Dict "command" =
      (if c1Gate.command = "" then none else some (JVal.s c1Gate.command))) :=
  ⟨rfl, rfl, C1_gate_projection 1 c1Gate c1Dict rfl rfl⟩

end Sykli
